/-
Verification of the topic-index discovery subsystem (topicindex package):
the Registration and Search state machines from
`p2p/discover/topicindex/{registration,search}.go`.

The Go code is shallowly embedded: Go maps become insertion-ordered
association lists (Go map iteration order is unspecified; the embedding
determinizes it to insertion order, which the spec explicitly allows for
`refill`), the `container/heap` priority queue is embedded with the real
sift-up / sift-down algorithms over a list of node ids, machine integers
become `Int` / `Nat`, and functions whose Go counterpart can panic return
`Option`.
-/
import Mathlib

set_option maxHeartbeats 1000000

namespace Topicindex

/-! ### Basic list primitives

Small self-contained list operations (indexing, in-place update, counting)
used by the embedding, with the lemmas the proofs need. -/

/-- Total list indexing with an explicit default (Go slice indexing; the
default is unreachable at in-range indices). -/
def nth {α : Type} (d : α) : List α → Nat → α
  | [], _ => d
  | a :: _, 0 => a
  | _ :: t, i + 1 => nth d t i

/-- In-place update of index `i` (no-op when out of range). -/
def setIdx {α : Type} : List α → Nat → α → List α
  | [], _, _ => []
  | _ :: t, 0, v => v :: t
  | a :: t, i + 1, v => a :: setIdx t i v

/-- Boolean list membership for `Nat` lists. -/
def memb : List Nat → Nat → Bool
  | [], _ => false
  | a :: t, x => if a = x then true else memb t x

/-- Number of occurrences of `x`. -/
def cnt : List Nat → Nat → Nat
  | [], _ => 0
  | a :: t, x => (if a = x then 1 else 0) + cnt t x

/-- Position of the first occurrence of `x` (length if absent). -/
def posOf : List Nat → Nat → Nat
  | [], _ => 0
  | a :: t, x => if a = x then 0 else posOf t x + 1

@[simp] theorem length_setIdx {α : Type} (l : List α) (i : Nat) (v : α) :
    (setIdx l i v).length = l.length := by
  induction l generalizing i with
  | nil => rfl
  | cons a t ih => cases i <;> simp [setIdx, ih]

theorem nth_setIdx_self {α : Type} (d : α) (l : List α) (i : Nat) (v : α)
    (h : i < l.length) : nth d (setIdx l i v) i = v := by
  induction l generalizing i with
  | nil => simp at h
  | cons a t ih =>
    cases i with
    | zero => rfl
    | succ j => exact ih j (by simpa using h)

theorem nth_setIdx_ne {α : Type} (d : α) (l : List α) (i j : Nat) (v : α)
    (h : i ≠ j) : nth d (setIdx l i v) j = nth d l j := by
  induction l generalizing i j with
  | nil => cases i <;> rfl
  | cons a t ih =>
    cases i with
    | zero => cases j with
      | zero => exact absurd rfl h
      | succ _ => rfl
    | succ i' => cases j with
      | zero => rfl
      | succ j' => exact ih i' j' (fun hc => h (by rw [hc]))

theorem setIdx_oob {α : Type} (l : List α) (i : Nat) (v : α)
    (h : l.length ≤ i) : setIdx l i v = l := by
  induction l generalizing i with
  | nil => rfl
  | cons a t ih =>
    cases i with
    | zero => simp at h
    | succ j => simp [setIdx, ih j (by simpa using h)]

theorem memb_iff (l : List Nat) (x : Nat) : memb l x = true ↔ x ∈ l := by
  induction l with
  | nil => simp [memb]
  | cons a t ih =>
    by_cases h : a = x <;> simp [memb, h, ih]
    exact fun hx => (h hx.symm).elim

theorem cnt_pos_iff (l : List Nat) (x : Nat) : 0 < cnt l x ↔ x ∈ l := by
  induction l with
  | nil => simp [cnt]
  | cons a t ih =>
    by_cases h : a = x <;> simp [cnt, h, ih]
    exact fun hx => (h hx.symm).elim

theorem posOf_lt_length (l : List Nat) (x : Nat) (h : x ∈ l) :
    posOf l x < l.length := by
  induction l with
  | nil => simp at h
  | cons a t ih =>
    by_cases hax : a = x
    · simp [posOf, hax]
    · have hxt : x ∈ t := by
        cases List.mem_cons.mp h with
        | inl heq => exact absurd heq.symm hax
        | inr hm => exact hm
      simpa [posOf, hax] using ih hxt

theorem nth_posOf (l : List Nat) (x : Nat) (h : x ∈ l) :
    nth 0 l (posOf l x) = x := by
  induction l with
  | nil => simp at h
  | cons a t ih =>
    by_cases hax : a = x
    · simp [posOf, hax, nth]
    · have hxt : x ∈ t := by
        cases List.mem_cons.mp h with
        | inl heq => exact absurd heq.symm hax
        | inr hm => exact hm
      simpa [posOf, hax, nth] using ih hxt

theorem cnt_setIdx (l : List Nat) (i : Nat) (v x : Nat) (h : i < l.length) :
    cnt (setIdx l i v) x + (if nth 0 l i = x then 1 else 0)
      = cnt l x + (if v = x then 1 else 0) := by
  induction l generalizing i with
  | nil => simp at h
  | cons a t ih =>
    cases i with
    | zero => simp only [setIdx, cnt, nth]; omega
    | succ j =>
      have := ih j (by simpa using h)
      simp only [setIdx, cnt, nth]
      omega

theorem cnt_take_pred (l : List Nat) (x : Nat) (h : l ≠ []) :
    cnt (l.take (l.length - 1)) x + (if nth 0 l (l.length - 1) = x then 1 else 0)
      = cnt l x := by
  induction l with
  | nil => exact absurd rfl h
  | cons a t ih =>
    cases t with
    | nil => simp [cnt, nth]
    | cons b u =>
      have ht : (b :: u) ≠ [] := by simp
      have := ih ht
      simp only [List.length_cons, Nat.add_sub_cancel, List.take, cnt, nth] at *
      omega

/-! ### Log distance

`enode.LogDist` is not part of this repository snapshot.
Modelled from the spec: `logdist(a, b) = 256 − leading_zero_bits(a XOR b)`
when `a ≠ b`, and `0` when `a = b`; for 256-bit values this is the bit
length of `a XOR b`.  `bitLen` is bit length with fuel (the fuel `n` is
sufficient since the bit length of `n` is at most `n`). -/

def bitLenAux : Nat → Nat → Nat
  | 0, _ => 0
  | fuel + 1, n => if n = 0 then 0 else bitLenAux fuel (n / 2) + 1

/-- Bit length of a natural number: `0` for `0`, otherwise `⌊log₂ n⌋ + 1`. -/
def bitLen (n : Nat) : Nat := bitLenAux n n

theorem bitLenAux_irrel (fuel fuel' n : Nat) (h : n ≤ fuel) (h' : n ≤ fuel') :
    bitLenAux fuel n = bitLenAux fuel' n := by
  induction fuel generalizing fuel' n with
  | zero =>
    interval_cases n
    cases fuel' <;> simp [bitLenAux]
  | succ f ih =>
    cases fuel' with
    | zero =>
      interval_cases n
      simp [bitLenAux]
    | succ f' =>
      by_cases hn : n = 0
      · simp [bitLenAux, hn]
      · have hlt : n / 2 < n := Nat.div_lt_self (Nat.pos_of_ne_zero hn) one_lt_two
        have hd : n / 2 ≤ f := by omega
        have hd' : n / 2 ≤ f' := by omega
        simp [bitLenAux, hn, ih f' (n / 2) hd hd']

@[simp] theorem bitLen_zero : bitLen 0 = 0 := rfl

theorem bitLen_of_pos (n : Nat) (h : n ≠ 0) : bitLen n = bitLen (n / 2) + 1 := by
  cases n with
  | zero => exact absurd rfl h
  | succ k =>
    show bitLenAux (k + 1) (k + 1) = bitLenAux ((k + 1) / 2) ((k + 1) / 2) + 1
    have h1 : bitLenAux (k + 1) (k + 1) = bitLenAux k ((k + 1) / 2) + 1 := rfl
    rw [h1]
    congr 1
    exact bitLenAux_irrel k ((k + 1) / 2) ((k + 1) / 2) (by omega) (Nat.le_refl _)

theorem bitLen_two_pow (k : Nat) : bitLen (2 ^ k) = k + 1 := by
  induction k with
  | zero => rfl
  | succ m ih =>
    have hne : (2 : Nat) ^ (m + 1) ≠ 0 := (pow_pos (by norm_num : (0 : Nat) < 2) (m + 1)).ne'
    rw [bitLen_of_pos _ hne]
    have h2 : (2 : Nat) ^ (m + 1) / 2 = 2 ^ m := by
      rw [pow_succ, Nat.mul_div_cancel]
      norm_num
    rw [h2, ih]

theorem bitLen_le_of_lt_two_pow (n k : Nat) (h : n < 2 ^ k) : bitLen n ≤ k := by
  induction k generalizing n with
  | zero =>
    interval_cases n
    simp
  | succ m ih =>
    by_cases hn : n = 0
    · simp [hn]
    · rw [bitLen_of_pos n hn]
      have : n / 2 < 2 ^ m := by
        rw [Nat.div_lt_iff_lt_mul (by norm_num : 0 < 2)]
        calc n < 2 ^ (m + 1) := h
        _ = 2 ^ m * 2 := by rw [pow_succ]
      exact Nat.succ_le_succ (ih _ this)

/-- Kademlia XOR log-distance between two 256-bit identifiers.
Modelled from the spec (`enode.LogDist` is not in this snapshot):
`256 − leading_zero_bits(a XOR b)` for `a ≠ b`, `0` for `a = b`, i.e. the
bit length of `a XOR b`. -/
def logDist (a b : Nat) : Nat := bitLen (a ^^^ b)

theorem logDist_self (a : Nat) : logDist a a = 0 := by
  simp [logDist, Nat.xor_self]

theorem logDist_le_256 (a b : Nat) (ha : a < 2 ^ 256) (hb : b < 2 ^ 256) :
    logDist a b ≤ 256 :=
  bitLen_le_of_lt_two_pow _ _ (Nat.xor_lt_two_pow ha hb)

/-- An identifier at exact log-distance `d` from `center`.
Modelled from the spec: `random_id_at(center, d)` returns a random ID whose
log-distance to `center` is exactly `d` (flip bit `d−1`, randomize the bits
below); `center` itself for `d = 0`.  The embedding determinizes the random
choice to the representative with all the low bits zero. -/
def randomIdAt (center : Nat) (d : Nat) : Nat :=
  if d = 0 then center else center ^^^ 2 ^ (d - 1)

theorem xor_xor_cancel (a m : Nat) : a ^^^ (a ^^^ m) = m := by
  rw [← Nat.xor_assoc, Nat.xor_self, Nat.zero_xor]

theorem logDist_randomIdAt (center d : Nat) :
    logDist center (randomIdAt center d) = d := by
  by_cases h : d = 0
  · simp [randomIdAt, h, logDist_self]
  · simp only [randomIdAt, h, if_false, logDist, xor_xor_cancel]
    rw [bitLen_two_pow]
    omega

theorem randomIdAt_ne (center d : Nat) (h : 1 ≤ d) :
    randomIdAt center d ≠ center := by
  intro hc
  have h1 : logDist center (randomIdAt center d) = d := logDist_randomIdAt center d
  rw [hc, logDist_self] at h1
  omega

/-! ### Bucket index math

From the source: `Registration.bucket` computes
`index := dist - 256 + (len(r.buckets) - 1)`, clamped below at `0`;
`Search.bucket` computes `dist := 256 - LogDist(...)`, clamped above at
`len(s.buckets) - 1 = 39`. -/

/-- Number of buckets in both tables (`regTableDepth` / `searchTableDepth`). -/
def tableDepth : Nat := 40

/-- `regBucketMaxReplacements`: maximum Standby attempts per bucket. -/
def regBucketMaxReplacements : Int := 20

/-- Bucket index used by `Registration.bucket`:
`index := dist - 256 + (len(buckets) - 1)`, clamped below at `0`. -/
def regBucketIndex (topic id : Nat) : Nat :=
  (if (logDist topic id : Int) - 256 + ((tableDepth : Int) - 1) < 0 then 0
   else (logDist topic id : Int) - 256 + ((tableDepth : Int) - 1)).toNat

/-- Bucket index used by `Search.bucket`:
`dist := 256 - logDist`, clamped above at `len(buckets) - 1`. -/
def searchBucketIndex (topic id : Nat) : Nat :=
  (if 256 - (logDist topic id : Int) > (tableDepth : Int) - 1 then (tableDepth : Int) - 1
   else 256 - (logDist topic id : Int)).toNat

theorem regBucketIndex_le (topic id : Nat) (ht : topic < 2 ^ 256)
    (hi : id < 2 ^ 256) : regBucketIndex topic id ≤ 39 := by
  have h := logDist_le_256 topic id ht hi
  unfold regBucketIndex tableDepth
  split <;> omega

theorem searchBucketIndex_le (topic id : Nat) : searchBucketIndex topic id ≤ 39 := by
  unfold searchBucketIndex tableDepth
  split <;> omega

/-! ### Association lists

Go's `map[enode.ID]...` fields become insertion-ordered association lists
with unique keys. -/

/-- Map lookup. -/
def alookup {β : Type} : List (Nat × β) → Nat → Option β
  | [], _ => none
  | p :: t, k => if p.1 = k then some p.2 else alookup t k

/-- Update the value stored under key `k` in place (all occurrences;
keys are unique in every reachable state). -/
def aupdate {β : Type} : List (Nat × β) → Nat → (β → β) → List (Nat × β)
  | [], _, _ => []
  | p :: t, k, f => (if p.1 = k then (p.1, f p.2) else p) :: aupdate t k f

/-- Map deletion (Go `delete`). -/
def aremove {β : Type} : List (Nat × β) → Nat → List (Nat × β)
  | [], _ => []
  | p :: t, k => if p.1 = k then aremove t k else p :: aremove t k

/-- Keys of the map, in insertion order. -/
def akeys {β : Type} (l : List (Nat × β)) : List Nat := l.map Prod.fst

theorem alookup_aupdate_self {β : Type} (l : List (Nat × β)) (k : Nat)
    (f : β → β) (v : β) (h : alookup l k = some v) :
    alookup (aupdate l k f) k = some (f v) := by
  induction l with
  | nil => simp [alookup] at h
  | cons p t ih =>
    by_cases hp : p.1 = k
    · simp [alookup, hp] at h
      simp [aupdate, alookup, hp, h]
    · simp [alookup, hp] at h
      simp [aupdate, alookup, hp, ih h]

theorem alookup_aupdate_ne {β : Type} (l : List (Nat × β)) (k j : Nat)
    (f : β → β) (h : k ≠ j) : alookup (aupdate l k f) j = alookup l j := by
  induction l with
  | nil => rfl
  | cons p t ih =>
    by_cases hp : p.1 = k
    · have hpj : p.1 ≠ j := fun hc => h (hp.symm.trans hc)
      simp [aupdate, alookup, hp, hpj, h, ih]
    · by_cases hj : p.1 = j
      · have hjk : ¬j = k := fun hc => hp (hj.trans hc)
        simp [aupdate, alookup, hp, hj, hjk, ih]
      · simp [aupdate, alookup, hp, hj, ih]

theorem alookup_aupdate_isSome {β : Type} (l : List (Nat × β)) (k j : Nat)
    (f : β → β) : (alookup (aupdate l k f) j).isSome = (alookup l j).isSome := by
  induction l with
  | nil => rfl
  | cons p t ih =>
    by_cases hp : p.1 = k
    · by_cases hkj : k = j <;> simp [aupdate, alookup, hp, hkj, ih]
    · by_cases hj : p.1 = j
      · have hjk : ¬j = k := fun hc => hp (hj.trans hc)
        simp [aupdate, alookup, hp, hj, hjk, ih]
      · simp [aupdate, alookup, hp, hj, ih]

theorem alookup_aremove_self {β : Type} (l : List (Nat × β)) (k : Nat) :
    alookup (aremove l k) k = none := by
  induction l with
  | nil => rfl
  | cons p t ih =>
    by_cases hp : p.1 = k <;> simp [aremove, alookup, hp, ih]

theorem alookup_aremove_ne {β : Type} (l : List (Nat × β)) (k j : Nat)
    (h : k ≠ j) : alookup (aremove l k) j = alookup l j := by
  induction l with
  | nil => rfl
  | cons p t ih =>
    by_cases hp : p.1 = k
    · have hpj : p.1 ≠ j := fun hc => h (hp.symm.trans hc)
      simp [aremove, alookup, hp, hpj, h, ih]
    · by_cases hj : p.1 = j
      · have hjk : ¬j = k := fun hc => hp (hj.trans hc)
        simp [aremove, alookup, hp, hj, hjk, ih]
      · simp [aremove, alookup, hp, hj, ih]

theorem alookup_append_right {β : Type} (l : List (Nat × β)) (k : Nat) (v : β)
    (h : alookup l k = none) : alookup (l ++ [(k, v)]) k = some v := by
  induction l with
  | nil => simp [alookup]
  | cons p t ih =>
    by_cases hp : p.1 = k
    · simp [alookup, hp] at h
    · simp [alookup, hp] at h ⊢
      exact ih h

theorem alookup_append_ne {β : Type} (l : List (Nat × β)) (k j : Nat) (v : β)
    (h : k ≠ j) : alookup (l ++ [(k, v)]) j = alookup l j := by
  induction l with
  | nil => simp [alookup, h]
  | cons p t ih =>
    by_cases hp : p.1 = j <;> simp [alookup, hp, ih]

theorem alookup_none_iff {β : Type} (l : List (Nat × β)) (k : Nat) :
    alookup l k = none ↔ k ∉ akeys l := by
  induction l with
  | nil => simp [alookup, akeys]
  | cons p t ih =>
    by_cases hp : p.1 = k
    · simp [alookup, akeys, hp]
    · have hp' : k ≠ p.1 := fun hc => hp hc.symm
      simp [alookup, akeys, hp, hp', ih]

theorem alookup_of_mem_nodup {β : Type} (l : List (Nat × β)) (k : Nat) (v : β)
    (hn : (akeys l).Nodup) (hm : (k, v) ∈ l) : alookup l k = some v := by
  induction l with
  | nil => simp at hm
  | cons p t ih =>
    simp only [akeys, List.map_cons, List.nodup_cons] at hn
    cases List.mem_cons.mp hm with
    | inl he =>
      rw [← he]
      simp [alookup]
    | inr hmt =>
      by_cases hp : p.1 = k
      · exfalso
        apply hn.1
        rw [hp]
        exact List.mem_map.mpr ⟨(k, v), hmt, rfl⟩
      · simp [alookup, hp]
        exact ih hn.2 hmt

theorem akeys_aupdate {β : Type} (l : List (Nat × β)) (k : Nat) (f : β → β) :
    akeys (aupdate l k f) = akeys l := by
  induction l with
  | nil => rfl
  | cons p t ih =>
    by_cases hp : p.1 = k <;> simp [aupdate, akeys, hp] <;>
      simpa [akeys] using ih

theorem akeys_aremove_sublist {β : Type} (l : List (Nat × β)) (k : Nat) :
    (akeys (aremove l k)).Sublist (akeys l) := by
  induction l with
  | nil => simp [aremove, akeys]
  | cons p t ih =>
    show (akeys (if p.1 = k then aremove t k else p :: aremove t k)).Sublist (akeys (p :: t))
    by_cases hp : p.1 = k
    · rw [if_pos hp]
      simp only [akeys, List.map_cons]
      exact (by simpa [akeys] using ih : (akeys (aremove t k)).Sublist (akeys t)).cons p.1
    · rw [if_neg hp]
      simp only [akeys, List.map_cons]
      exact (by simpa [akeys] using ih : (akeys (aremove t k)).Sublist (akeys t)).cons₂ p.1

theorem akeys_aremove_nodup {β : Type} (l : List (Nat × β)) (k : Nat)
    (h : (akeys l).Nodup) : (akeys (aremove l k)).Nodup :=
  (akeys_aremove_sublist l k).nodup h

theorem akeys_append_nodup {β : Type} (l : List (Nat × β)) (k : Nat) (v : β)
    (h : (akeys l).Nodup) (hk : alookup l k = none) :
    (akeys (l ++ [(k, v)])).Nodup := by
  have hkk : k ∉ akeys l := (alookup_none_iff l k).mp hk
  simp only [akeys, List.map_append, List.map_cons, List.map_nil]
  rw [List.nodup_append]
  refine ⟨h, List.nodup_singleton k, ?_⟩
  intro a ha hb
  simp at hb
  rw [hb] at ha
  exact hkk ha

/-! ### The attempt heap

`container/heap` over `regHeap`, embedded as a list of node ids ordered by
a key function (the attempt's `NextTime`, read from the registration state
at call time).  `hup` / `hdown` are `container/heap`'s `up` and `down`;
the fuel arguments strictly bound the number of sift steps and never run
out at the lengths used. -/

/-- `regHeap.Less i j` : `rh[i].NextTime < rh[j].NextTime`. -/
def hless (key : Nat → Int) (h : List Nat) (i j : Nat) : Bool :=
  decide (key (nth 0 h i) < key (nth 0 h j))

/-- `regHeap.Swap`. -/
def hswap (h : List Nat) (i j : Nat) : List Nat :=
  setIdx (setIdx h i (nth 0 h j)) j (nth 0 h i)

/-- `container/heap`'s `up`. -/
def hup (key : Nat → Int) : Nat → List Nat → Nat → List Nat
  | 0, h, _ => h
  | fuel + 1, h, j =>
    if j = 0 then h
    else
      let i := (j - 1) / 2
      if hless key h j i then hup key fuel (hswap h i j) i else h

/-- `container/heap`'s `down`; also returns the final index so the caller
can tell whether the element moved. -/
def hdown (key : Nat → Int) : Nat → List Nat → Nat → Nat → List Nat × Nat
  | 0, h, i, _ => (h, i)
  | fuel + 1, h, i, n =>
    let j1 := 2 * i + 1
    if j1 ≥ n then (h, i)
    else
      let j := if j1 + 1 < n ∧ hless key h (j1 + 1) j1 then j1 + 1 else j1
      if hless key h j i then hdown key fuel (hswap h i j) j n
      else (h, i)

/-- `heap.Push`: append, then sift up from the last slot. -/
def hpush (key : Nat → Int) (h : List Nat) (x : Nat) : List Nat :=
  hup key (h.length + 1) (h ++ [x]) h.length

/-- `heap.Remove(i)`: swap with the last slot, sift, then pop the last. -/
def hremove (key : Nat → Int) (h : List Nat) (i : Nat) : List Nat :=
  let n := h.length - 1
  if i = n then h.take n
  else
    let h1 := hswap h i n
    let p := hdown key h1.length h1 i n
    let h2 := if p.2 > i then p.1 else hup key p.1.length p.1 i
    h2.take n

@[simp] theorem length_hswap (h : List Nat) (i j : Nat) :
    (hswap h i j).length = h.length := by
  simp [hswap]

theorem length_hup (key : Nat → Int) (fuel : Nat) :
    ∀ (h : List Nat) (j : Nat), (hup key fuel h j).length = h.length := by
  induction fuel with
  | zero => intro h j; rfl
  | succ f ih =>
    intro h j
    by_cases hj : j = 0
    · simp [hup, hj]
    · by_cases hl : hless key h j ((j - 1) / 2)
      · simp [hup, hj, hl, ih]
      · simp [hup, hj, hl]

theorem length_hdown (key : Nat → Int) (fuel : Nat) :
    ∀ (h : List Nat) (i n : Nat), ((hdown key fuel h i n).1).length = h.length := by
  induction fuel with
  | zero => intro h i n; rfl
  | succ f ih =>
    intro h i n
    by_cases h1 : 2 * i + 1 ≥ n
    · simp [hdown, h1]
    · simp only [hdown, h1, if_neg (by omega : ¬2 * i + 1 ≥ n)]
      by_cases hl : hless key h (if 2 * i + 1 + 1 < n ∧ hless key h (2 * i + 1 + 1) (2 * i + 1) then 2 * i + 1 + 1 else 2 * i + 1) i
      · simp [hl, ih]
      · simp [hl]

theorem nth_hswap_at (h : List Nat) (i j : Nat) (hj : j < h.length) :
    nth 0 (hswap h i j) j = nth 0 h i := by
  unfold hswap
  exact nth_setIdx_self 0 _ j _ (by simpa using hj)

theorem nth_hswap_ne (h : List Nat) (i j m : Nat) (hi : m ≠ i) (hj : m ≠ j) :
    nth 0 (hswap h i j) m = nth 0 h m := by
  unfold hswap
  rw [nth_setIdx_ne 0 _ j m _ (fun hc => hj hc.symm),
    nth_setIdx_ne 0 _ i m _ (fun hc => hi hc.symm)]

theorem cnt_hswap (h : List Nat) (i j x : Nat) (hi : i < h.length)
    (hj : j < h.length) : cnt (hswap h i j) x = cnt h x := by
  have e1 := cnt_setIdx h i (nth 0 h j) x hi
  have hj1 : j < (setIdx h i (nth 0 h j)).length := by simpa using hj
  have e2 := cnt_setIdx (setIdx h i (nth 0 h j)) j (nth 0 h i) x hj1
  by_cases hij : i = j
  · subst hij
    rw [nth_setIdx_self 0 h i _ hi] at e2
    unfold hswap
    omega
  · rw [nth_setIdx_ne 0 h i j _ hij] at e2
    unfold hswap
    omega

theorem cnt_hup (key : Nat → Int) (fuel : Nat) :
    ∀ (h : List Nat) (j x : Nat), j < h.length →
      cnt (hup key fuel h j) x = cnt h x := by
  induction fuel with
  | zero => intro h j x _; rfl
  | succ f ih =>
    intro h j x hjl
    by_cases hj : j = 0
    · simp [hup, hj]
    · by_cases hl : hless key h j ((j - 1) / 2)
      · have hil : (j - 1) / 2 < h.length := by omega
        have hrec := ih (hswap h ((j - 1) / 2) j) ((j - 1) / 2) x
          (by simpa using hil)
        simp only [hup, hj, hl, if_neg, if_pos, ite_true, ite_false, not_false_iff]
        rw [hrec, cnt_hswap h _ j x hil hjl]
      · simp [hup, hj, hl]

theorem nth_hup_ge (key : Nat → Int) (fuel : Nat) :
    ∀ (h : List Nat) (j n m : Nat), j < n → n ≤ m →
      nth 0 (hup key fuel h j) m = nth 0 h m := by
  induction fuel with
  | zero => intro h j n m _ _; rfl
  | succ f ih =>
    intro h j n m hjn hnm
    by_cases hj : j = 0
    · simp [hup, hj]
    · by_cases hl : hless key h j ((j - 1) / 2)
      · simp only [hup, hj, hl, ite_true, ite_false]
        rw [ih (hswap h ((j - 1) / 2) j) ((j - 1) / 2) n m (by omega) hnm]
        exact nth_hswap_ne h _ j m (by omega) (by omega)
      · simp [hup, hj, hl]

theorem nth_hdown_ge (key : Nat → Int) (fuel : Nat) :
    ∀ (h : List Nat) (i n m : Nat), i < n → n ≤ m →
      nth 0 ((hdown key fuel h i n).1) m = nth 0 h m := by
  induction fuel with
  | zero => intro h i n m _ _; rfl
  | succ f ih =>
    intro h i n m hin hnm
    by_cases h1 : 2 * i + 1 ≥ n
    · simp [hdown, h1]
    · simp only [hdown, if_neg (by omega : ¬2 * i + 1 ≥ n)]
      set j := if 2 * i + 1 + 1 < n ∧ hless key h (2 * i + 1 + 1) (2 * i + 1) then 2 * i + 1 + 1 else 2 * i + 1 with hjdef
      have hjn : j < n := by
        rw [hjdef]
        split <;> omega
      by_cases hl : hless key h j i
      · simp only [hl, ite_true, ite_false]
        rw [ih (hswap h i j) j n m hjn hnm]
        exact nth_hswap_ne h i j m (by omega) (by omega)
      · simp [hl]

theorem cnt_hdown (key : Nat → Int) (fuel : Nat) :
    ∀ (h : List Nat) (i n x : Nat), i < n → n ≤ h.length →
      cnt ((hdown key fuel h i n).1) x = cnt h x := by
  induction fuel with
  | zero => intro h i n x _ _; rfl
  | succ f ih =>
    intro h i n x hin hnl
    by_cases h1 : 2 * i + 1 ≥ n
    · simp [hdown, h1]
    · simp only [hdown, if_neg (by omega : ¬2 * i + 1 ≥ n)]
      set j := if 2 * i + 1 + 1 < n ∧ hless key h (2 * i + 1 + 1) (2 * i + 1) then 2 * i + 1 + 1 else 2 * i + 1 with hjdef
      have hjn : j < n := by
        rw [hjdef]
        split <;> omega
      by_cases hl : hless key h j i
      · simp only [hl, ite_true, ite_false]
        rw [ih (hswap h i j) j n x hjn (by simpa using hnl)]
        exact cnt_hswap h i j x (by omega) (by omega)
      · simp [hl]

theorem cnt_append_single (l : List Nat) (x y : Nat) :
    cnt (l ++ [x]) y = cnt l y + (if x = y then 1 else 0) := by
  induction l with
  | nil => simp [cnt]
  | cons a t ih =>
    have h1 : (a :: t) ++ [x] = a :: (t ++ [x]) := rfl
    rw [h1]
    show (if a = y then 1 else 0) + cnt (t ++ [x]) y
      = ((if a = y then 1 else 0) + cnt t y) + (if x = y then 1 else 0)
    rw [ih]
    omega

theorem cnt_hpush (key : Nat → Int) (h : List Nat) (x y : Nat) :
    cnt (hpush key h x) y = cnt h y + (if x = y then 1 else 0) := by
  unfold hpush
  rw [cnt_hup key (h.length + 1) (h ++ [x]) h.length y (by simp)]
  exact cnt_append_single h x y

theorem cnt_hremove (key : Nat → Int) (h : List Nat) (i x : Nat)
    (hi : i < h.length) :
    cnt (hremove key h i) x + (if nth 0 h i = x then 1 else 0) = cnt h x := by
  have hne : h ≠ [] := by
    intro hc
    rw [hc] at hi
    simp at hi
  unfold hremove
  by_cases hin : i = h.length - 1
  · rw [if_pos hin, ← hin]
    have := cnt_take_pred h x hne
    rw [← hin] at this
    exact this
  · rw [if_neg hin]
    have hilt : i < h.length - 1 := by omega
    set n := h.length - 1 with hn
    set h1 := hswap h i n with hh1
    have hl1 : h1.length = h.length := by simp [hh1]
    set p := hdown key h1.length h1 i n with hp
    have hl2 : p.1.length = h.length := by rw [hp, length_hdown, hl1]
    set h2 := if p.2 > i then p.1 else hup key p.1.length p.1 i with hh2
    have hl3 : h2.length = h.length := by
      rw [hh2]
      split
      · exact hl2
      · rw [length_hup, hl2]
    have hc1 : cnt h1 x = cnt h x := cnt_hswap h i n x hi (by omega)
    have hc2 : cnt p.1 x = cnt h1 x := by
      rw [hp]
      exact cnt_hdown key h1.length h1 i n x hilt (by omega)
    have hc3 : cnt h2 x = cnt p.1 x := by
      rw [hh2]
      split
      · rfl
      · exact cnt_hup key p.1.length p.1 i x (by omega)
    have hn1 : nth 0 h1 n = nth 0 h i := nth_hswap_at h i n (by omega)
    have hn2 : nth 0 p.1 n = nth 0 h1 n := by
      rw [hp]
      exact nth_hdown_ge key h1.length h1 i n n hilt (Nat.le_refl n)
    have hn3 : nth 0 h2 n = nth 0 p.1 n := by
      rw [hh2]
      split
      · rfl
      · exact nth_hup_ge key p.1.length p.1 i n n hilt (Nat.le_refl n)
    have h2ne : h2 ≠ [] := by
      intro hc
      rw [hc] at hl3
      simp at hl3
      omega
    have htake := cnt_take_pred h2 x h2ne
    rw [hl3] at htake
    rw [hn3, hn2, hn1] at htake
    rw [hc3, hc2, hc1] at htake
    exact htake

theorem cnt_hremove_posOf (key : Nat → Int) (h : List Nat) (x : Nat)
    (hc : cnt h x = 1) : cnt (hremove key h (posOf h x)) x = 0 := by
  have hm : x ∈ h := (cnt_pos_iff h x).mp (by omega)
  have hlt := posOf_lt_length h x hm
  have hnth := nth_posOf h x hm
  have := cnt_hremove key h (posOf h x) x hlt
  rw [hnth] at this
  simp at this
  omega

theorem not_mem_of_cnt_zero (l : List Nat) (x : Nat) (h : cnt l x = 0) :
    x ∉ l := by
  intro hm
  have := (cnt_pos_iff l x).mpr hm
  omega

/-! ### Registration data model

From `registration.go`.  A node record carries an id and a sequence
number; times and durations are `Int` (`mclock.AbsTime` / `time.Duration`
are int64 nanoseconds).  The Go `index` field of an attempt is represented
as follows: `index = -2` (request in flight) becomes `inFlight = true`;
`index ≥ 0` is recoverable as the attempt's position in the heap list;
`index = -1` corresponds to `inFlight = false` and not being on the heap. -/

/-- A node record: identifier and ENR sequence number. -/
structure Node where
  id : Nat
  seq : Nat
deriving DecidableEq, Repr

/-- `RegAttemptState`. -/
inductive RegAttemptState where
  | Standby
  | Waiting
  | Registered
deriving DecidableEq, Repr, BEq

/-- `RegAttempt` (sans the derived `bucket` back-pointer). -/
structure RegAttempt where
  state : RegAttemptState
  nextTime : Int
  node : Node
  ticket : List Nat
  totalWaitTime : Int
  inFlight : Bool
deriving DecidableEq, Repr

/-- `regBucket`: per-state counters are kept explicitly, as in the source. -/
structure RegBucket where
  dist : Nat
  att : List (Nat × RegAttempt)
  countStandby : Int
  countWaiting : Int
  countRegistered : Int
deriving DecidableEq, Repr

/-- `Registration` together with its configuration snapshot and the clock
reading (`cfg.Clock.Now()` is the `now` field; the driver advances it). -/
structure RegState where
  topic : Nat
  self : Nat
  regBucketSize : Int
  now : Int
  buckets : List RegBucket
  heap : List Nat
deriving DecidableEq, Repr

def emptyRegBucket : RegBucket :=
  { dist := 0, att := [], countStandby := 0, countWaiting := 0, countRegistered := 0 }

/-- `NewRegistration`: 40 buckets at distances `217 + i` (close → far). -/
def newRegistration (topic self : Nat) (regBucketSize : Int) (now : Int) : RegState :=
  { topic := topic, self := self, regBucketSize := regBucketSize, now := now,
    buckets := (List.range tableDepth).map (fun i =>
      { dist := 256 - (tableDepth - 1) + i, att := [],
        countStandby := 0, countWaiting := 0, countRegistered := 0 }),
    heap := [] }

def getBkt (s : RegState) (i : Nat) : RegBucket := nth emptyRegBucket s.buckets i

def setBkt (s : RegState) (i : Nat) (b : RegBucket) : RegState :=
  { s with buckets := setIdx s.buckets i b }

/-- Look up the attempt stored for `id` (in the bucket `Registration.bucket`
assigns to `id`). -/
def findAtt (s : RegState) (id : Nat) : Option RegAttempt :=
  alookup (getBkt s (regBucketIndex s.topic id)).att id

/-- Heap ordering key: the attempt's `NextTime` at the current state. -/
def keyOf (s : RegState) : Nat → Int := fun id =>
  match findAtt s id with
  | some a => a.nextTime
  | none => 0

/-- `b.count[st]--`. -/
def decCount (b : RegBucket) (st : RegAttemptState) : RegBucket :=
  match st with
  | .Standby => { b with countStandby := b.countStandby - 1 }
  | .Waiting => { b with countWaiting := b.countWaiting - 1 }
  | .Registered => { b with countRegistered := b.countRegistered - 1 }

/-- `b.count[st]++`. -/
def incCount (b : RegBucket) (st : RegAttemptState) : RegBucket :=
  match st with
  | .Standby => { b with countStandby := b.countStandby + 1 }
  | .Waiting => { b with countWaiting := b.countWaiting + 1 }
  | .Registered => { b with countRegistered := b.countRegistered + 1 }

/-- `Registration.LookupTarget`: a random id at the distance of the first
bucket with no Registered attempt, the topic itself otherwise. -/
def lookupTarget (s : RegState) : Nat :=
  match s.buckets.find? (fun b => b.countRegistered == 0) with
  | some b => randomIdAt s.topic b.dist
  | none => s.topic

/-- `Registration.refillAttempts`: promote the first Standby attempt of the
bucket to Waiting (at most one per call) unless enough are Waiting. -/
def refillAttempts (s : RegState) (bi : Nat) : RegState :=
  let b := getBkt s bi
  if s.regBucketSize ≤ b.countWaiting then s
  else
    match b.att.find? (fun p => p.2.state == RegAttemptState.Standby) with
    | none => s
    | some p =>
      let att2 := { p.2 with state := RegAttemptState.Waiting, nextTime := s.now }
      let b2 := incCount (decCount { b with att := aupdate b.att p.1 (fun _ => att2) } p.2.state)
        RegAttemptState.Waiting
      let s2 := setBkt s bi b2
      { s2 with heap := hpush (keyOf s2) s2.heap p.1 }

/-- One step of `Registration.AddNodes` (the loop body for one node). -/
def regAddNode (s : RegState) (n : Node) : RegState :=
  if n.id = s.self then s
  else
    let bi := regBucketIndex s.topic n.id
    let b := getBkt s bi
    match alookup b.att n.id with
    | some attempt =>
      if attempt.node.seq < n.seq then
        setBkt s bi { b with att := aupdate b.att n.id (fun a => { a with node := n }) }
      else s
    | none =>
      if regBucketMaxReplacements ≤ b.countStandby then s
      else
        let att : RegAttempt :=
          { state := RegAttemptState.Standby, nextTime := 0, node := n,
            ticket := [], totalWaitTime := 0, inFlight := false }
        let b2 := incCount { b with att := b.att ++ [(n.id, att)] } att.state
        refillAttempts (setBkt s bi b2) bi

/-- `Registration.AddNodes`. -/
def regAddNodes (s : RegState) (nodes : List Node) : RegState :=
  nodes.foldl regAddNode s

/-- `Registration.removeAttempt`: `none` when the bucket does not hold the
attempt (the Go code panics there). -/
def removeAttempt (s : RegState) (id : Nat) : Option RegState :=
  match findAtt s id with
  | none => none
  | some att =>
    let s1 := if att.inFlight = false ∧ memb s.heap id then
        { s with heap := hremove (keyOf s) s.heap (posOf s.heap id) }
      else s
    let bi := regBucketIndex s1.topic id
    let b := getBkt s1 bi
    some (setBkt s1 bi (decCount { b with att := aremove b.att id } att.state))

/-- `Registration.Update`: `none` models a panic (Standby attempt on the
heap, or a heap id with no stored attempt). -/
def update (s : RegState) : Option (RegState × Option Nat) :=
  match s.heap with
  | [] => some (s, none)
  | topId :: _ =>
    match findAtt s topId with
    | none => none
    | some att =>
      match att.state with
      | RegAttemptState.Standby => none
      | RegAttemptState.Registered =>
        if att.nextTime ≤ s.now then
          match removeAttempt s topId with
          | none => none
          | some s1 => some (refillAttempts s1 (regBucketIndex s.topic topId), none)
        else some (s, none)
      | RegAttemptState.Waiting =>
        if att.nextTime ≤ s.now then some (s, some topId)
        else some (s, none)

/-- `Registration.StartRequest`: requires state Waiting (panic otherwise)
and removes the attempt from the heap, marking the request in flight. -/
def startRequest (s : RegState) (id : Nat) : Option RegState :=
  match findAtt s id with
  | none => none
  | some att =>
    if att.state = RegAttemptState.Waiting then
      if memb s.heap id then
        let s1 := { s with heap := hremove (keyOf s) s.heap (posOf s.heap id) }
        let bi := regBucketIndex s1.topic id
        let b := getBkt s1 bi
        some (setBkt s1 bi
          { b with att := aupdate b.att id (fun a => { a with inFlight := true }) })
      else none
    else none

/-- `Registration.validate` as a predicate: the request must be in flight
(`index == -2`). -/
def validateAtt (att : RegAttempt) : Bool := att.inFlight

/-- `Registration.HandleTicketResponse`: store the ticket, reschedule at
`now + waitTime`, push back onto the heap. -/
def handleTicketResponse (s : RegState) (id : Nat) (ticket : List Nat)
    (waitTime : Int) : Option RegState :=
  match findAtt s id with
  | none => none
  | some att =>
    if validateAtt att then
      let att2 := { att with
        ticket := ticket
        nextTime := s.now + waitTime
        inFlight := false }
      let bi := regBucketIndex s.topic id
      let b := getBkt s bi
      let s1 := setBkt s bi { b with att := aupdate b.att id (fun _ => att2) }
      some { s1 with heap := hpush (keyOf s1) s1.heap id }
    else none

/-- `Registration.HandleRegistered`: transition to Registered, schedule the
expiry at `now + ttl`, push onto the heap, refill the bucket. -/
def handleRegistered (s : RegState) (id : Nat) (ttl : Int) : Option RegState :=
  match findAtt s id with
  | none => none
  | some att =>
    if validateAtt att then
      let att2 := { att with
        state := RegAttemptState.Registered
        nextTime := s.now + ttl
        inFlight := false }
      let bi := regBucketIndex s.topic id
      let b := getBkt s bi
      let b2 := incCount (decCount { b with att := aupdate b.att id (fun _ => att2) } att.state)
        RegAttemptState.Registered
      let s1 := setBkt s bi b2
      let s2 := { s1 with heap := hpush (keyOf s1) s1.heap id }
      some (refillAttempts s2 bi)
    else none

/-- `Registration.HandleErrorResponse`: remove the attempt, refill its
bucket.  The error value is irrelevant to the state change. -/
def handleErrorResponse (s : RegState) (id : Nat) (_err : Nat) : Option RegState :=
  match findAtt s id with
  | none => none
  | some att =>
    if validateAtt att then
      match removeAttempt s id with
      | none => none
      | some s1 => some (refillAttempts s1 (regBucketIndex s.topic id))
    else none

/-! ### Search data model

From `search.go`. -/

/-- `searchBucket`. -/
structure SearchBucket where
  dist : Nat
  new : List (Nat × Node)
  asked : List Nat
  numResults : Int
deriving DecidableEq, Repr

/-- `Search` with its configuration snapshot. -/
structure SearchState where
  topic : Nat
  self : Nat
  searchBucketSize : Int
  buckets : List SearchBucket
  resultBuffer : List Node
  numResults : Int
  queriesWithoutNewNodes : Nat
deriving DecidableEq, Repr

def emptySearchBucket : SearchBucket :=
  { dist := 0, new := [], asked := [], numResults := 0 }

/-- `NewSearch`: 40 buckets at distances `256 - i` (far → close). -/
def newSearch (topic self : Nat) (searchBucketSize : Int) : SearchState :=
  { topic := topic, self := self, searchBucketSize := searchBucketSize,
    buckets := (List.range tableDepth).map (fun i =>
      { dist := 256 - i, new := [], asked := [], numResults := 0 }),
    resultBuffer := [], numResults := 0, queriesWithoutNewNodes := 0 }

def getSBkt (s : SearchState) (i : Nat) : SearchBucket := nth emptySearchBucket s.buckets i

def setSBkt (s : SearchState) (i : Nat) (b : SearchBucket) : SearchState :=
  { s with buckets := setIdx s.buckets i b }

/-- `Search.IsDone`: saturated when the result buffer is drained, no bucket
has unasked nodes, and the last two lookups produced nothing new. -/
def isDone (s : SearchState) : Bool :=
  if s.resultBuffer.length > 0 then false
  else if s.buckets.any (fun b => b.new.length > 0) then false
  else decide (s.queriesWithoutNewNodes ≥ 2)

/-- `newer`: keep the record with the higher sequence number. -/
def newer (n1 : Option Node) (n2 : Node) : Node :=
  match n1 with
  | none => n2
  | some m => if n2.seq ≤ m.seq then m else n2

/-- `searchBucket.contains`. -/
def sbContains (b : SearchBucket) (id : Nat) : Bool :=
  (alookup b.new id).isSome || memb b.asked id

/-- `searchBucket.count`: `len(new) + len(asked)`. -/
def sbCount (b : SearchBucket) : Nat := b.new.length + b.asked.length

/-- `searchBucket.add`: ignore ids already asked, otherwise upsert into
`new`, keeping the newer record. -/
def sbAdd (b : SearchBucket) (n : Node) : SearchBucket :=
  if memb b.asked n.id then b
  else
    match alookup b.new n.id with
    | some old => { b with new := aupdate b.new n.id (fun _ => newer (some old) n) }
    | none => { b with new := b.new ++ [(n.id, newer none n)] }

/-- `searchBucket.setAsked`: insert into `asked`, delete from `new`. -/
def sbSetAsked (b : SearchBucket) (id : Nat) : SearchBucket :=
  { b with
    asked := if memb b.asked id then b.asked else b.asked ++ [id]
    new := aremove b.new id }

/-- One step of `Search.AddNodes` (the loop body for one node); the Bool
accumulates `anyNewNode`. -/
def searchAddNode (p : SearchState × Bool) (n : Node) : SearchState × Bool :=
  let s := p.1
  if n.id = s.self then p
  else
    let bi := searchBucketIndex s.topic n.id
    let b := getSBkt s bi
    let any2 := if sbContains b n.id = false then true else p.2
    let s2 := if (sbCount b : Int) < s.searchBucketSize then setSBkt s bi (sbAdd b n) else s
    (s2, any2)

/-- `Search.AddNodes` (the `src` argument is unused in the source). -/
def searchAddNodes (s : SearchState) (_src : Option Node) (nodes : List Node) : SearchState :=
  let p := nodes.foldl searchAddNode (s, false)
  if p.2 then { p.1 with queriesWithoutNewNodes := 0 }
  else { p.1 with queriesWithoutNewNodes := p.1.queriesWithoutNewNodes + 1 }

/-- `Search.QueryTarget`: some node of the first non-empty `new` set in
bucket order (reads the state, never changes it). -/
def queryTarget (s : SearchState) : Option Node :=
  s.buckets.findSome? (fun b => (b.new.head?).map Prod.snd)

/-- One step of the `Search.AddQueryResults` result loop. -/
def searchResultStep (bi : Nat) (st : SearchState) (n : Node) : SearchState :=
  if n.id = st.self then st
  else
    let b := getSBkt st bi
    let st2 := setSBkt st bi { b with numResults := b.numResults + 1 }
    { st2 with
      numResults := st2.numResults + 1
      resultBuffer := st2.resultBuffer ++ [n] }

/-- `Search.AddQueryResults`: mark the sender as asked, then append all
results (except self) to the result buffer, bumping both counters. -/
def addQueryResults (s : SearchState) (src : Node) (results : List Node) : SearchState :=
  let bi := searchBucketIndex s.topic src.id
  let s1 := setSBkt s bi (sbSetAsked (getSBkt s bi) src.id)
  results.foldl (searchResultStep bi) s1

/-- `Search.PeekResult` (reads the state, never changes it). -/
def peekResult (s : SearchState) : Option Node := s.resultBuffer.head?

/-- `Search.PopResult`: `none` models the panic on an empty buffer. -/
def popResult (s : SearchState) : Option SearchState :=
  match s.resultBuffer with
  | [] => none
  | _ :: t => some { s with resultBuffer := t }

/-! ### Operation words

Sequences of public operations, used to state "after any sequence of
operations" invariants.  A failing (panicking) operation aborts the run. -/

/-- Public operations of `Registration`.  `tick` stands for the driver's
clock advancing between calls; `update` discards the returned attempt. -/
inductive ROp where
  | tick (t : Int)
  | addNodes (nodes : List Node)
  | update
  | startRequest (id : Nat)
  | handleTicketResponse (id : Nat) (ticket : List Nat) (waitTime : Int)
  | handleRegistered (id : Nat) (ttl : Int)
  | handleErrorResponse (id : Nat) (err : Nat)
deriving DecidableEq, Repr

def applyROp (s : RegState) : ROp → Option RegState
  | ROp.tick t => some { s with now := t }
  | ROp.addNodes nodes => some (regAddNodes s nodes)
  | ROp.update => (update s).map Prod.fst
  | ROp.startRequest id => startRequest s id
  | ROp.handleTicketResponse id ticket wt => handleTicketResponse s id ticket wt
  | ROp.handleRegistered id ttl => handleRegistered s id ttl
  | ROp.handleErrorResponse id err => handleErrorResponse s id err

def applyROps (s : RegState) : List ROp → Option RegState
  | [] => some s
  | op :: rest =>
    match applyROp s op with
    | none => none
    | some s1 => applyROps s1 rest

/-- Public operations of `Search`.  `queryTarget` and `peekResult` read the
state without changing it, so they leave the state as is. -/
inductive SOp where
  | addNodes (src : Option Node) (nodes : List Node)
  | queryTarget
  | addQueryResults (src : Node) (results : List Node)
  | peekResult
  | popResult
deriving DecidableEq, Repr

def applySOp (s : SearchState) : SOp → Option SearchState
  | SOp.addNodes src nodes => some (searchAddNodes s src nodes)
  | SOp.queryTarget => some s
  | SOp.addQueryResults src results => some (addQueryResults s src results)
  | SOp.peekResult => some s
  | SOp.popResult => popResult s

def applySOps (s : SearchState) : List SOp → Option SearchState
  | [] => some s
  | op :: rest =>
    match applySOp s op with
    | none => none
    | some s1 => applySOps s1 rest

/-! ### Claims -/

/-- C1: `Search.IsDone` returns true if and only if the result buffer is
empty, every bucket's `new` set is empty, and the queries-without-new-nodes
counter is at least 2; in every other state it returns false. -/
theorem isDone_iff (s : SearchState) :
    isDone s = true ↔
      (s.resultBuffer = [] ∧ (∀ b ∈ s.buckets, b.new = [])
        ∧ 2 ≤ s.queriesWithoutNewNodes) := by
  unfold isDone
  split_ifs with h1 h2
  · constructor
    · intro h
      simp at h
    · rintro ⟨hb, _, _⟩
      rw [hb] at h1
      simp at h1
  · constructor
    · intro h
      simp at h
    · rintro ⟨_, hn, _⟩
      rcases List.any_eq_true.mp h2 with ⟨b, hmem, hlen⟩
      rw [hn b hmem] at hlen
      simp at hlen
  · simp only [decide_eq_true_eq, ge_iff_le]
    constructor
    · intro hq
      refine ⟨?_, ?_, hq⟩
      · cases hre : s.resultBuffer with
        | nil => rfl
        | cons a t =>
          rw [hre] at h1
          simp at h1
      · intro b hb
        by_contra hbn
        apply h2
        refine List.any_eq_true.mpr ⟨b, hb, ?_⟩
        simp only [decide_eq_true_eq]
        cases hbe : b.new with
        | nil => exact absurd hbe hbn
        | cons p t => simp [hbe]
    · rintro ⟨_, _, hq⟩
      exact hq

/-- C2 counterexample: a node at `logdist(topic, n) = 250 ≥ 40` does not
land in the Search overflow bucket (39); it lands in bucket 6. -/
theorem search_overflow_counterexample :
    40 ≤ logDist 0 (2 ^ 249) ∧ searchBucketIndex 0 (2 ^ 249) ≠ 39 := by
  have hld : logDist 0 (2 ^ 249) = 250 := by
    unfold logDist
    rw [Nat.zero_xor, bitLen_two_pow]
  constructor
  · omega
  · unfold searchBucketIndex tableDepth
    rw [hld]
    norm_num
    decide

/-- C2 (amended): the bucket index formulas hold, and a node at
`logdist ≤ 217` lands in the designated overflow bucket of either table
(bucket 0 for Registration, bucket 39 for Search); no out-of-range index
is produced. -/
theorem bucket_index_spec (topic id : Nat) (ht : topic < 2 ^ 256)
    (hid : id < 2 ^ 256) :
    (regBucketIndex topic id : Int) = max 0 ((logDist topic id : Int) - 256 + 39)
    ∧ (searchBucketIndex topic id : Int) = min 39 (256 - (logDist topic id : Int))
    ∧ (logDist topic id ≤ 217 → regBucketIndex topic id = 0)
    ∧ (logDist topic id ≤ 217 → searchBucketIndex topic id = 39)
    ∧ regBucketIndex topic id ≤ 39 ∧ searchBucketIndex topic id ≤ 39 := by
  have h := logDist_le_256 topic id ht hid
  unfold regBucketIndex searchBucketIndex tableDepth
  refine ⟨?_, ?_, fun _ => ?_, fun _ => ?_, ?_, ?_⟩ <;>
    split_ifs <;> omega

/-- C2 witness: the amended claim evaluated at `topic = 0`, `id = 1`
(log-distance 1, overflow in both tables). -/
theorem bucket_index_spec_witness :
    (0 : Nat) < 2 ^ 256 ∧ (1 : Nat) < 2 ^ 256 ∧ logDist 0 1 ≤ 217
      ∧ regBucketIndex 0 1 = 0 ∧ searchBucketIndex 0 1 = 39 := by
  refine ⟨by norm_num, by norm_num, by decide, ?_, ?_⟩
  · exact (bucket_index_spec 0 1 (by norm_num) (by norm_num)).2.2.1 (by decide)
  · exact (bucket_index_spec 0 1 (by norm_num) (by norm_num)).2.2.2.1 (by decide)

theorem getBkt_setBkt_self (s : RegState) (i : Nat) (b : RegBucket)
    (h : i < s.buckets.length) : getBkt (setBkt s i b) i = b := by
  unfold getBkt setBkt
  exact nth_setIdx_self emptyRegBucket s.buckets i b h

theorem getBkt_setBkt_ne (s : RegState) (i j : Nat) (b : RegBucket)
    (h : i ≠ j) : getBkt (setBkt s i b) j = getBkt s j := by
  unfold getBkt setBkt
  exact nth_setIdx_ne emptyRegBucket s.buckets i j b h

@[simp] theorem att_decCount (b : RegBucket) (st : RegAttemptState) :
    (decCount b st).att = b.att := by
  cases st <;> rfl

@[simp] theorem att_incCount (b : RegBucket) (st : RegAttemptState) :
    (incCount b st).att = b.att := by
  cases st <;> rfl

theorem findAtt_setBkt (s : RegState) (bi : Nat) (b : RegBucket) (id : Nat)
    (hbi : bi = regBucketIndex s.topic id) (h : bi < s.buckets.length) :
    findAtt (setBkt s bi b) id = alookup b.att id := by
  unfold findAtt
  have h2 : (setBkt s bi b).topic = s.topic := rfl
  rw [h2, ← hbi, getBkt_setBkt_self s bi b h]

/-- C3: `Registration.Update` inspects the heap top: a ripe Waiting attempt
is returned with the state unchanged; a ripe Registered attempt is removed
from its bucket and the heap, the bucket is refilled, and `None` is
returned; a top scheduled in the future yields `None` without modification;
a Standby attempt on the heap is a fatal invariant violation (panic). -/
theorem update_top_behavior (s : RegState) (topId : Nat) (rest : List Nat)
    (att : RegAttempt) (hh : s.heap = topId :: rest)
    (h1 : findAtt s topId = some att) (hif : att.inFlight = false)
    (hcnt : cnt s.heap topId = 1) (ht : s.topic < 2 ^ 256)
    (hid : topId < 2 ^ 256) (hlen : s.buckets.length = 40) :
    (att.state = RegAttemptState.Waiting → att.nextTime ≤ s.now →
        update s = some (s, some topId))
    ∧ (s.now < att.nextTime → att.state ≠ RegAttemptState.Standby →
        update s = some (s, none))
    ∧ (att.state = RegAttemptState.Registered → att.nextTime ≤ s.now →
        ∃ s1, removeAttempt s topId = some s1
          ∧ findAtt s1 topId = none
          ∧ topId ∉ s1.heap
          ∧ update s = some (refillAttempts s1 (regBucketIndex s.topic topId), none))
    ∧ (att.state = RegAttemptState.Standby → update s = none) := by
  have hbi : regBucketIndex s.topic topId < s.buckets.length := by
    rw [hlen]
    have := regBucketIndex_le s.topic topId ht hid
    omega
  have hmem : memb s.heap topId = true := by
    rw [memb_iff, hh]
    exact List.mem_cons_self topId rest
  -- the removal path
  have hrem : removeAttempt s topId
      = some (setBkt { s with heap := hremove (keyOf s) s.heap (posOf s.heap topId) }
          (regBucketIndex s.topic topId)
          (decCount { getBkt s (regBucketIndex s.topic topId) with
              att := aremove (getBkt s (regBucketIndex s.topic topId)).att topId }
            att.state)) := by
    unfold removeAttempt
    rw [h1]
    simp only [hif, hmem, and_self, if_pos, true_and]
    rfl
  refine ⟨?_, ?_, ?_, ?_⟩
  · intro hst hrt
    unfold update
    rw [hh]
    simp only [h1, hst]
    rw [if_pos hrt]
  · intro hrt hst
    unfold update
    rw [hh]
    simp only [h1]
    cases hs : att.state with
    | Standby => exact absurd hs hst
    | Waiting =>
      show (if att.nextTime ≤ s.now then some (s, some topId) else some (s, none))
        = some (s, none)
      rw [if_neg (by omega)]
    | Registered =>
      show (if att.nextTime ≤ s.now then
          match removeAttempt s topId with
          | none => none
          | some s1 => some (refillAttempts s1 (regBucketIndex s.topic topId), none)
        else some (s, none)) = some (s, none)
      rw [if_neg (by omega)]
  · intro hst hrt
    refine ⟨_, hrem, ?_, ?_, ?_⟩
    · rw [findAtt_setBkt _ _ _ _ rfl (by exact hbi)]
      rw [att_decCount]
      exact alookup_aremove_self _ _
    · show topId ∉ hremove (keyOf s) s.heap (posOf s.heap topId)
      exact not_mem_of_cnt_zero _ _ (cnt_hremove_posOf (keyOf s) s.heap topId hcnt)
    · unfold update
      rw [hh]
      simp only [h1, hst]
      show (if att.nextTime ≤ s.now then
          match removeAttempt s topId with
          | none => none
          | some s1 => some (refillAttempts s1 (regBucketIndex s.topic topId), none)
        else some (s, none)) = _
      rw [if_pos hrt, hrem, hh, hst]
  · intro hst
    unfold update
    rw [hh]
    simp only [h1, hst]

/-- C3 witness: a fresh registration with one added node has a ripe Waiting
attempt on top of the heap, and `Update` returns it unchanged. -/
theorem update_top_behavior_witness :
    update (regAddNodes (newRegistration 0 5 1 100) [⟨1, 1⟩])
      = some (regAddNodes (newRegistration 0 5 1 100) [⟨1, 1⟩], some 1) := by
  exact (update_top_behavior (regAddNodes (newRegistration 0 5 1 100) [⟨1, 1⟩]) 1 []
    { state := RegAttemptState.Waiting, nextTime := 100, node := ⟨1, 1⟩,
      ticket := [], totalWaitTime := 0, inFlight := false }
    (by decide) (by decide) (by decide) (by decide) (by decide) (by decide)
    (by decide)).1 (by decide) (by decide)


theorem findAtt_setHeap (s : RegState) (hp : List Nat) (j : Nat) :
    findAtt { s with heap := hp } j = findAtt s j := rfl

/-- C4 (what the code actually does): `HandleTicketResponse` stores the
ticket and reschedules the attempt at `now + waitTime`, but leaves
`TotalWaitTime` unchanged — the waited duration is never accumulated,
contradicting the field's own documentation ("time spent waiting so far"). -/
theorem handleTicketResponse_totalWaitTime (s : RegState) (id : Nat)
    (tkt : List Nat) (wt : Int) (att : RegAttempt)
    (h1 : findAtt s id = some att) (h2 : att.inFlight = true)
    (hbi : regBucketIndex s.topic id < s.buckets.length) :
    ((handleTicketResponse s id tkt wt).bind (fun s2 => findAtt s2 id)
        = some { att with ticket := tkt, nextTime := s.now + wt, inFlight := false })
    ∧ (∀ s2 att2, handleTicketResponse s id tkt wt = some s2 →
        findAtt s2 id = some att2 →
          att2.totalWaitTime = att.totalWaitTime
          ∧ (wt ≠ 0 → att2.totalWaitTime ≠ att.totalWaitTime + wt)) := by
  have halk : alookup (getBkt s (regBucketIndex s.topic id)).att id = some att := h1
  have hfind : (handleTicketResponse s id tkt wt).bind (fun s2 => findAtt s2 id)
      = some { att with ticket := tkt, nextTime := s.now + wt, inFlight := false } := by
    unfold handleTicketResponse validateAtt
    rw [h1]
    simp only [h2, eq_self_iff_true, if_true, Option.some_bind]
    rw [findAtt_setHeap, findAtt_setBkt _ _ _ _ rfl hbi]
    exact alookup_aupdate_self _ _ _ _ halk
  refine ⟨hfind, ?_⟩
  intro s2 att2 he hf
  rw [he] at hfind
  have hfind2 : findAtt s2 id
      = some { att with ticket := tkt, nextTime := s.now + wt, inFlight := false } := hfind
  rw [hf] at hfind2
  have hatt2 : att2 = { att with ticket := tkt, nextTime := s.now + wt, inFlight := false } :=
    Option.some.inj hfind2
  constructor
  · rw [hatt2]
  · intro hwt
    rw [hatt2]
    show att.totalWaitTime ≠ att.totalWaitTime + wt
    omega

/-- C4 witness: at a concrete in-flight attempt with wait time 5, the
stored `totalWaitTime` stays 0 instead of increasing by 5. -/
theorem handleTicketResponse_totalWaitTime_witness :
    ((handleTicketResponse
        ((startRequest (regAddNodes (newRegistration 0 5 1 100) [⟨1, 1⟩]) 1).getD
          (newRegistration 0 5 1 100)) 1 [170] 5).bind (fun s2 => findAtt s2 1))
      = some { state := RegAttemptState.Waiting, nextTime := 105, node := ⟨1, 1⟩,
               ticket := [170], totalWaitTime := 0, inFlight := false } := by
  have h := (handleTicketResponse_totalWaitTime
    ((startRequest (regAddNodes (newRegistration 0 5 1 100) [⟨1, 1⟩]) 1).getD
      (newRegistration 0 5 1 100)) 1 [170] 5
    { state := RegAttemptState.Waiting, nextTime := 100, node := ⟨1, 1⟩,
      ticket := [], totalWaitTime := 0, inFlight := true }
    (by decide) rfl (by decide)).1
  exact h


theorem topic_setBkt (s : RegState) (i : Nat) (b : RegBucket) :
    (setBkt s i b).topic = s.topic := rfl

theorem length_buckets_setBkt (s : RegState) (i : Nat) (b : RegBucket) :
    (setBkt s i b).buckets.length = s.buckets.length := by
  show (setIdx s.buckets i b).length = s.buckets.length
  exact length_setIdx s.buckets i b

theorem mem_akeys_of_mem {β : Type} (l : List (Nat × β)) (p : Nat × β)
    (h : p ∈ l) : p.1 ∈ akeys l :=
  List.mem_map_of_mem Prod.fst h

theorem findAtt_setBkt_isSome_frame (s : RegState) (bi : Nat) (b : RegBucket)
    (j : Nat) (hbi : bi < s.buckets.length)
    (hatt : (alookup b.att j).isSome = (alookup (getBkt s bi).att j).isSome) :
    (findAtt (setBkt s bi b) j).isSome = (findAtt s j).isSome := by
  unfold findAtt
  rw [topic_setBkt]
  by_cases hc : regBucketIndex s.topic j = bi
  · rw [hc, getBkt_setBkt_self s bi b hbi]
    exact hatt
  · rw [getBkt_setBkt_ne s bi _ b (fun hx => hc hx.symm)]

theorem findAtt_refill_isSome (s : RegState) (bi j : Nat)
    (hbi : bi < s.buckets.length) :
    (findAtt (refillAttempts s bi) j).isSome = (findAtt s j).isSome := by
  unfold refillAttempts
  dsimp only
  split_ifs with hw
  · rfl
  · cases hfind : (getBkt s bi).att.find? (fun p => p.2.state == RegAttemptState.Standby) with
    | none => rfl
    | some p =>
      rw [findAtt_setHeap]
      exact findAtt_setBkt_isSome_frame s bi _ j hbi (by
        rw [att_incCount, att_decCount]
        exact alookup_aupdate_isSome _ _ _ _)

theorem cnt_refill_heap (s : RegState) (bi id : Nat)
    (hcnt : cnt s.heap id = 0)
    (hb : alookup (getBkt s bi).att id = none) :
    cnt (refillAttempts s bi).heap id = 0 := by
  unfold refillAttempts
  dsimp only
  split_ifs with hw
  · exact hcnt
  · cases hfind : (getBkt s bi).att.find? (fun p => p.2.state == RegAttemptState.Standby) with
    | none => exact hcnt
    | some p =>
      show cnt (hpush _ (setBkt s bi _).heap p.1) id = 0
      have hp1 : p.1 ≠ id := by
        have hmem := List.mem_of_find?_eq_some hfind
        have hkeys : p.1 ∈ akeys (getBkt s bi).att := mem_akeys_of_mem _ _ hmem
        intro hc
        rw [hc] at hkeys
        exact (alookup_none_iff _ _).mp hb hkeys
      rw [cnt_hpush, if_neg hp1]
      show cnt s.heap id + 0 = 0
      omega


theorem startRequest_eq (u : RegState) (id : Nat) (a : RegAttempt)
    (hf : findAtt u id = some a) (hst : a.state = RegAttemptState.Waiting)
    (hmb : memb u.heap id = true)
    (hbi : regBucketIndex u.topic id < u.buckets.length) :
    ∃ s1, startRequest u id = some s1
      ∧ findAtt s1 id = some { a with inFlight := true }
      ∧ s1.heap = hremove (keyOf u) u.heap (posOf u.heap id)
      ∧ s1.buckets.length = u.buckets.length
      ∧ s1.topic = u.topic
      ∧ (getBkt s1 (regBucketIndex u.topic id)).countWaiting
          = (getBkt u (regBucketIndex u.topic id)).countWaiting
      ∧ (∀ j, (findAtt s1 j).isSome = (findAtt u j).isSome) := by
  refine ⟨setBkt { u with heap := hremove (keyOf u) u.heap (posOf u.heap id) }
      (regBucketIndex u.topic id)
      { getBkt u (regBucketIndex u.topic id) with
        att := aupdate (getBkt u (regBucketIndex u.topic id)).att id
          (fun x => { x with inFlight := true }) }, ?_, ?_, rfl, ?_, rfl, ?_, ?_⟩
  · unfold startRequest
    rw [hf]
    simp only [hst, hmb, eq_self_iff_true, if_true]
    rfl
  · rw [findAtt_setBkt _ _ _ _ rfl (by exact hbi)]
    exact alookup_aupdate_self _ _ _ _ hf
  · rw [length_buckets_setBkt]
  · rw [getBkt_setBkt_self _ _ _ (by exact hbi)]
  · intro j
    exact findAtt_setBkt_isSome_frame _ _ _ j (by exact hbi)
      (alookup_aupdate_isSome _ _ _ _)

theorem removeAttempt_inflight (u : RegState) (id : Nat) (a : RegAttempt)
    (hf : findAtt u id = some a) (hif : a.inFlight = true)
    (hbi : regBucketIndex u.topic id < u.buckets.length) :
    ∃ s2, removeAttempt u id = some s2
      ∧ findAtt s2 id = none
      ∧ s2.heap = u.heap
      ∧ s2.buckets.length = u.buckets.length
      ∧ s2.topic = u.topic
      ∧ (a.state = RegAttemptState.Waiting →
          (getBkt s2 (regBucketIndex u.topic id)).countWaiting
            = (getBkt u (regBucketIndex u.topic id)).countWaiting - 1)
      ∧ (∀ j, j ≠ id → (findAtt s2 j).isSome = (findAtt u j).isSome) := by
  refine ⟨setBkt u (regBucketIndex u.topic id)
      (decCount { getBkt u (regBucketIndex u.topic id) with
          att := aremove (getBkt u (regBucketIndex u.topic id)).att id } a.state),
    ?_, ?_, rfl, ?_, rfl, ?_, ?_⟩
  · unfold removeAttempt
    rw [hf]
    simp only [hif]
    rw [if_neg (by simp)]
  · rw [findAtt_setBkt _ _ _ _ rfl hbi, att_decCount]
    exact alookup_aremove_self _ _
  · rw [length_buckets_setBkt]
  · intro hst
    rw [getBkt_setBkt_self _ _ _ hbi, hst]
    rfl
  · intro j hj
    refine findAtt_setBkt_isSome_frame u _ _ j hbi ?_
    rw [att_decCount, alookup_aremove_ne _ _ _ (fun hc => hj hc.symm)]

theorem handleErrorResponse_eq (u : RegState) (id err : Nat) (a : RegAttempt)
    (hf : findAtt u id = some a) (hif : a.inFlight = true)
    (s2 : RegState) (hrm : removeAttempt u id = some s2) :
    handleErrorResponse u id err
      = some (refillAttempts s2 (regBucketIndex u.topic id)) := by
  unfold handleErrorResponse validateAtt
  rw [hf]
  simp only [hif, eq_self_iff_true, if_true]
  rw [hrm]

/-- C5: for an attempt in state Waiting sitting on the heap, the sequence
`start_request(a); handle_error_response(a, e)` removes `a` entirely — it
disappears from its bucket's attempt map and from the heap, and the
bucket's Waiting count is decremented — and the bucket is refilled; every
other node id is present in the table exactly as before, so the bucket
returns to its configuration from before `a` was created, modulo the other
attempts. -/
theorem error_response_removes_attempt (s : RegState) (id err : Nat)
    (att : RegAttempt) (h1 : findAtt s id = some att)
    (h2 : att.state = RegAttemptState.Waiting)
    (h4 : cnt s.heap id = 1)
    (hbi : regBucketIndex s.topic id < s.buckets.length) :
    ∃ s1 s2, startRequest s id = some s1
      ∧ removeAttempt s1 id = some s2
      ∧ handleErrorResponse s1 id err
          = some (refillAttempts s2 (regBucketIndex s.topic id))
      ∧ findAtt (refillAttempts s2 (regBucketIndex s.topic id)) id = none
      ∧ id ∉ (refillAttempts s2 (regBucketIndex s.topic id)).heap
      ∧ (getBkt s2 (regBucketIndex s.topic id)).countWaiting
          = (getBkt s (regBucketIndex s.topic id)).countWaiting - 1
      ∧ (∀ j, j ≠ id →
          (findAtt (refillAttempts s2 (regBucketIndex s.topic id)) j).isSome
            = (findAtt s j).isSome) := by
  have hmb : memb s.heap id = true :=
    (memb_iff s.heap id).mpr ((cnt_pos_iff s.heap id).mp (by omega))
  obtain ⟨s1, hsr, hf1, hheap1, hlen1, htop1, hcw1, hfr1⟩ :=
    startRequest_eq s id att h1 h2 hmb hbi
  have hbi1 : regBucketIndex s1.topic id < s1.buckets.length := by
    rw [htop1, hlen1]
    exact hbi
  obtain ⟨s2, hrm, hf2, hheap2, hlen2, htop2, hcw2, hfr2⟩ :=
    removeAttempt_inflight s1 id { att with inFlight := true } hf1 rfl hbi1
  have hbieq : regBucketIndex s1.topic id = regBucketIndex s.topic id := by
    rw [htop1]
  have herr := handleErrorResponse_eq s1 id err { att with inFlight := true } hf1 rfl s2 hrm
  rw [hbieq] at herr
  have hbi2 : regBucketIndex s.topic id < s2.buckets.length := by
    rw [hlen2, hlen1]
    exact hbi
  refine ⟨s1, s2, hsr, hrm, herr, ?_, ?_, ?_, ?_⟩
  · have hiso := findAtt_refill_isSome s2 (regBucketIndex s.topic id) id hbi2
    rw [hf2] at hiso
    cases hx : findAtt (refillAttempts s2 (regBucketIndex s.topic id)) id with
    | none => rfl
    | some v =>
      rw [hx] at hiso
      simp at hiso
  · have hc0 : cnt s2.heap id = 0 := by
      rw [hheap2, hheap1]
      exact cnt_hremove_posOf (keyOf s) s.heap id h4
    have hb0 : alookup (getBkt s2 (regBucketIndex s.topic id)).att id = none := by
      have hx := hf2
      unfold findAtt at hx
      rw [htop2, htop1] at hx
      exact hx
    exact not_mem_of_cnt_zero _ _ (cnt_refill_heap s2 (regBucketIndex s.topic id) id hc0 hb0)
  · have e := hcw2 h2
    rw [hbieq] at e
    rw [e, hcw1]
  · intro j hj
    rw [findAtt_refill_isSome s2 (regBucketIndex s.topic id) j hbi2]
    exact (hfr2 j hj).trans (hfr1 j)


/-- C5 witness: on a fresh registration with one Waiting attempt for node 1,
`startRequest` then `handleErrorResponse` leaves no attempt for node 1 and
no heap entry for it. -/
theorem error_response_removes_attempt_witness :
    ((startRequest (regAddNodes (newRegistration 0 5 1 100) [⟨1, 1⟩]) 1).bind
        (fun s1 => handleErrorResponse s1 1 7)).bind
      (fun sf => some (findAtt sf 1, memb sf.heap 1)) = some (none, false) := by
  obtain ⟨s1, s2, hsr, hrm, herr, hnone, hmem, hcw, hfr⟩ :=
    error_response_removes_attempt (regAddNodes (newRegistration 0 5 1 100) [⟨1, 1⟩]) 1 7
      { state := RegAttemptState.Waiting, nextTime := 100, node := ⟨1, 1⟩,
        ticket := [], totalWaitTime := 0, inFlight := false }
      (by decide) (by decide) (by decide) (by decide)
  have hmf : memb (refillAttempts s2
      (regBucketIndex (regAddNodes (newRegistration 0 5 1 100) [⟨1, 1⟩]).topic 1)).heap 1
      = false := by
    cases hx : memb (refillAttempts s2
        (regBucketIndex (regAddNodes (newRegistration 0 5 1 100) [⟨1, 1⟩]).topic 1)).heap 1
    · rfl
    · exact absurd ((memb_iff _ _).mp hx) hmem
  rw [hsr]
  simp only [Option.some_bind]
  rw [herr]
  simp only [Option.some_bind]
  rw [hnone, hmf]


/-- C6: `Registration.LookupTarget` returns an id whose log-distance to the
topic equals the `dist` of the first bucket (in scan order) with zero
Registered attempts; it returns the topic id itself if and only if every
bucket has at least one Registered attempt; on a fresh Registration the
returned id is at distance 217. -/
theorem lookupTarget_spec (s : RegState)
    (hd : ∀ b ∈ s.buckets, 1 ≤ b.dist)
    (t0 self0 : Nat) (rbs n0 : Int) :
    (∀ b, s.buckets.find? (fun b => b.countRegistered == 0) = some b →
        logDist s.topic (lookupTarget s) = b.dist)
    ∧ (lookupTarget s = s.topic ↔ ∀ b ∈ s.buckets, b.countRegistered ≠ 0)
    ∧ logDist t0 (lookupTarget (newRegistration t0 self0 rbs n0)) = 217 := by
  refine ⟨?_, ⟨?_, ?_⟩, ?_⟩
  · intro b hb
    unfold lookupTarget
    rw [hb]
    exact logDist_randomIdAt s.topic b.dist
  · intro he b hbmem hc0
    have hex : s.buckets.find? (fun b => b.countRegistered == 0) ≠ none := by
      intro hnone
      have := List.find?_eq_none.mp hnone b hbmem
      simp [hc0] at this
    cases hfd : s.buckets.find? (fun b => b.countRegistered == 0) with
    | none => exact hex hfd
    | some b0 =>
      have hb0mem : b0 ∈ s.buckets := List.mem_of_find?_eq_some hfd
      have hne : lookupTarget s ≠ s.topic := by
        unfold lookupTarget
        rw [hfd]
        exact randomIdAt_ne s.topic b0.dist (hd b0 hb0mem)
      exact hne he
  · intro hall
    unfold lookupTarget
    have hnone : s.buckets.find? (fun b => b.countRegistered == 0) = none := by
      rw [List.find?_eq_none]
      intro b hb
      simpa using hall b hb
    rw [hnone]
  · have hres : lookupTarget (newRegistration t0 self0 rbs n0) = randomIdAt t0 217 := rfl
    rw [hres]
    exact logDist_randomIdAt t0 217

/-- C6 witness: a fresh registration (all buckets empty) steers the next
lookup to an id at distance 217 from the topic. -/
theorem lookupTarget_spec_witness :
    logDist 0 (lookupTarget (newRegistration 0 5 1 100)) = 217 :=
  (lookupTarget_spec (newRegistration 0 5 1 100) (by decide) 0 5 1 100).2.2


theorem findAtt_setBkt_frame (s : RegState) (bi : Nat) (b : RegBucket) (j : Nat)
    (hbi : bi < s.buckets.length)
    (hatt : alookup b.att j = alookup (getBkt s bi).att j) :
    findAtt (setBkt s bi b) j = findAtt s j := by
  unfold findAtt
  rw [topic_setBkt]
  by_cases hc : regBucketIndex s.topic j = bi
  · rw [hc, getBkt_setBkt_self s bi b hbi]
    exact hatt
  · rw [getBkt_setBkt_ne s bi _ b (fun hx => hc hx.symm)]

/-- `AddNodes` on a node whose id already has an attempt and whose sequence
number is not higher changes nothing. -/
theorem regAddNode_existing_noop (u : RegState) (n : Node) (a : RegAttempt)
    (hf : findAtt u n.id = some a) (hself : n.id ≠ u.self)
    (hseq : ¬a.node.seq < n.seq) : regAddNode u n = u := by
  have hf' : alookup (getBkt u (regBucketIndex u.topic n.id)).att n.id = some a := hf
  unfold regAddNode
  dsimp only
  rw [if_neg hself, hf']
  simp only [hseq, ite_false, if_false]

/-- C8: when `AddNodes` receives a candidate whose id already has an attempt
in its bucket, the stored record is replaced iff the incoming sequence is
strictly higher; in every case the attempt's state, ticket, next time and
in-flight flag, the heap, and all other attempts are unchanged; re-adding
the node is a no-op. -/
theorem addNodes_existing_id (s : RegState) (n : Node) (att : RegAttempt)
    (h1 : findAtt s n.id = some att) (hself : n.id ≠ s.self)
    (hbi : regBucketIndex s.topic n.id < s.buckets.length) :
    findAtt (regAddNodes s [n]) n.id
        = some { att with node := if att.node.seq < n.seq then n else att.node }
    ∧ (regAddNodes s [n]).heap = s.heap
    ∧ (∀ j, j ≠ n.id → findAtt (regAddNodes s [n]) j = findAtt s j)
    ∧ regAddNodes (regAddNodes s [n]) [n] = regAddNodes s [n] := by
  have h1' : alookup (getBkt s (regBucketIndex s.topic n.id)).att n.id = some att := h1
  have hone : regAddNodes s [n] = regAddNode s n := rfl
  by_cases hseq : att.node.seq < n.seq
  · have hres : regAddNodes s [n] = setBkt s (regBucketIndex s.topic n.id)
        { getBkt s (regBucketIndex s.topic n.id) with
          att := aupdate (getBkt s (regBucketIndex s.topic n.id)).att n.id
            (fun a => { a with node := n }) } := by
      rw [hone]
      unfold regAddNode
      dsimp only
      rw [if_neg hself, h1']
      simp only [hseq, ite_true, if_true]
    have hfa : findAtt (regAddNodes s [n]) n.id = some { att with node := n } := by
      rw [hres, findAtt_setBkt _ _ _ _ rfl hbi]
      exact alookup_aupdate_self _ _ _ _ h1'
    refine ⟨?_, ?_, ?_, ?_⟩
    · rw [hfa, if_pos hseq]
    · rw [hres]
      rfl
    · intro j hj
      rw [hres]
      exact findAtt_setBkt_frame s _ _ j hbi
        (alookup_aupdate_ne _ _ _ _ (fun hc => hj hc.symm))
    · have hnoop : regAddNode (regAddNodes s [n]) n = regAddNodes s [n] :=
        regAddNode_existing_noop _ n { att with node := n } hfa
          (by rw [hres]; exact hself)
          (by
            show ¬n.seq < n.seq
            exact lt_irrefl n.seq)
      calc regAddNodes (regAddNodes s [n]) [n]
          = regAddNode (regAddNodes s [n]) n := rfl
        _ = regAddNodes s [n] := hnoop
  · have hres : regAddNodes s [n] = s := by
      rw [hone]
      exact regAddNode_existing_noop s n att h1 hself hseq
    refine ⟨?_, ?_, ?_, ?_⟩
    · rw [hres, if_neg hseq]
      exact h1
    · rw [hres]
    · intro j hj
      rw [hres]
    · rw [hres]
      exact hres

/-- C8 witness: re-adding node 1 with a higher sequence number upgrades the
stored record in place (state, schedule, ticket untouched). -/
theorem addNodes_existing_id_witness :
    findAtt (regAddNodes (regAddNodes (newRegistration 0 5 1 100) [⟨1, 1⟩]) [⟨1, 2⟩]) 1
      = some { state := RegAttemptState.Waiting, nextTime := 100, node := ⟨1, 2⟩,
               ticket := [], totalWaitTime := 0, inFlight := false } := by
  have h := (addNodes_existing_id (regAddNodes (newRegistration 0 5 1 100) [⟨1, 1⟩]) ⟨1, 2⟩
    { state := RegAttemptState.Waiting, nextTime := 100, node := ⟨1, 1⟩,
      ticket := [], totalWaitTime := 0, inFlight := false }
    (by decide) (by decide) (by decide)).1
  rw [h]
  rfl


theorem nth_mem {α : Type} (d : α) (l : List α) (i : Nat) (h : i < l.length) :
    nth d l i ∈ l := by
  induction l generalizing i with
  | nil => simp at h
  | cons a t ih =>
    cases i with
    | zero => exact List.mem_cons_self a t
    | succ j => exact List.mem_cons_of_mem a (ih j (by simpa using h))

theorem nth_oob {α : Type} (d : α) (l : List α) (i : Nat) (h : l.length ≤ i) :
    nth d l i = d := by
  induction l generalizing i with
  | nil => rfl
  | cons a t ih =>
    cases i with
    | zero => simp at h
    | succ j => exact ih j (by simpa using h)

theorem mem_setIdx {α : Type} (l : List α) (i : Nat) (v b : α)
    (h : b ∈ setIdx l i v) : b ∈ l ∨ b = v := by
  induction l generalizing i with
  | nil => simp [setIdx] at h
  | cons a t ih =>
    cases i with
    | zero =>
      cases List.mem_cons.mp h with
      | inl he => exact Or.inr he
      | inr hm => exact Or.inl (List.mem_cons_of_mem a hm)
    | succ j =>
      cases List.mem_cons.mp h with
      | inl he => exact Or.inl (he ▸ List.mem_cons_self a t)
      | inr hm =>
        cases ih j hm with
        | inl hx => exact Or.inl (List.mem_cons_of_mem a hx)
        | inr hx => exact Or.inr hx

theorem mem_aupdate_key {β : Type} (l : List (Nat × β)) (k : Nat) (f : β → β)
    (p : Nat × β) (h : p ∈ aupdate l k f) : ∃ q ∈ l, p.1 = q.1 := by
  induction l with
  | nil => simp [aupdate] at h
  | cons a t ih =>
    cases List.mem_cons.mp h with
    | inl he =>
      refine ⟨a, List.mem_cons_self a t, ?_⟩
      rw [he]
      by_cases ha : a.1 = k <;> simp [ha]
    | inr hm =>
      obtain ⟨q, hq, he⟩ := ih hm
      exact ⟨q, List.mem_cons_of_mem a hq, he⟩

theorem mem_aremove {β : Type} (l : List (Nat × β)) (k : Nat) (p : Nat × β)
    (h : p ∈ aremove l k) : p ∈ l ∧ p.1 ≠ k := by
  induction l with
  | nil => simp [aremove] at h
  | cons a t ih =>
    by_cases ha : a.1 = k
    · simp only [aremove, ha, if_pos rfl] at h
      obtain ⟨hm, hne⟩ := ih h
      exact ⟨List.mem_cons_of_mem a hm, hne⟩
    · simp only [aremove, if_neg ha] at h
      cases List.mem_cons.mp h with
      | inl he =>
        refine ⟨he ▸ List.mem_cons_self a t, ?_⟩
        rw [he]
        exact ha
      | inr hm =>
        obtain ⟨hmem, hne⟩ := ih hm
        exact ⟨List.mem_cons_of_mem a hmem, hne⟩

/-- Per-bucket half of the C9 invariant: `new ∩ asked = ∅`. -/
def sbDisjoint (b : SearchBucket) : Prop := ∀ p ∈ b.new, p.1 ∉ b.asked

/-- C9 invariant: in every bucket, no id is both unasked and asked. -/
def searchDisjointInv (s : SearchState) : Prop := ∀ b ∈ s.buckets, sbDisjoint b

instance (b : SearchBucket) : Decidable (sbDisjoint b) := by
  unfold sbDisjoint
  infer_instance

instance (s : SearchState) : Decidable (searchDisjointInv s) := by
  unfold searchDisjointInv
  infer_instance

theorem searchDisjointInv_setSBkt (s : SearchState) (bi : Nat) (b : SearchBucket)
    (hinv : searchDisjointInv s) (hb : sbDisjoint b) :
    searchDisjointInv (setSBkt s bi b) := by
  intro b2 hb2
  cases mem_setIdx s.buckets bi b b2 hb2 with
  | inl hm => exact hinv b2 hm
  | inr he => exact he ▸ hb

theorem sbDisjoint_getSBkt (s : SearchState) (bi : Nat)
    (hinv : searchDisjointInv s) : sbDisjoint (getSBkt s bi) := by
  by_cases h : bi < s.buckets.length
  · exact hinv _ (nth_mem _ _ _ h)
  · unfold getSBkt
    rw [nth_oob _ _ _ (by omega)]
    intro p hp
    simp [emptySearchBucket] at hp

theorem sbAdd_disjoint (b : SearchBucket) (n : Node) (h : sbDisjoint b) :
    sbDisjoint (sbAdd b n) := by
  unfold sbAdd
  by_cases hask : memb b.asked n.id
  · simpa [hask] using h
  · rw [if_neg (by simp [hask])]
    cases hl : alookup b.new n.id with
    | some old =>
      intro p hp
      obtain ⟨q, hq, he⟩ := mem_aupdate_key b.new n.id _ p hp
      rw [he]
      exact h q hq
    | none =>
      intro p hp
      cases List.mem_append.mp hp with
      | inl hm => exact h p hm
      | inr hm =>
        have : p = (n.id, newer none n) := by simpa using hm
        rw [this]
        intro hc
        exact hask ((memb_iff b.asked n.id).mpr hc)

theorem sbSetAsked_disjoint (b : SearchBucket) (id : Nat) (h : sbDisjoint b) :
    sbDisjoint (sbSetAsked b id) := by
  intro p hp
  obtain ⟨hm, hne⟩ := mem_aremove b.new id p hp
  intro hc
  by_cases hask : memb b.asked id
  · rw [show (sbSetAsked b id).asked = b.asked from by simp [sbSetAsked, hask]] at hc
    exact h p hm hc
  · rw [show (sbSetAsked b id).asked = b.asked ++ [id] from by simp [sbSetAsked, hask]] at hc
    cases List.mem_append.mp hc with
    | inl hx => exact h p hm hx
    | inr hx =>
      have : p.1 = id := by simpa using hx
      exact hne this

theorem searchAddNode_inv (p : SearchState × Bool) (n : Node)
    (h : searchDisjointInv p.1) : searchDisjointInv (searchAddNode p n).1 := by
  unfold searchAddNode
  dsimp only
  by_cases hs : n.id = p.1.self
  · simpa [hs] using h
  · rw [if_neg hs]
    by_cases hc : (sbCount (getSBkt p.1 (searchBucketIndex p.1.topic n.id)) : Int)
        < p.1.searchBucketSize
    · rw [if_pos hc]
      exact searchDisjointInv_setSBkt _ _ _ h
        (sbAdd_disjoint _ n (sbDisjoint_getSBkt _ _ h))
    · rw [if_neg hc]
      exact h

theorem foldl_preserve {σ α : Type} (P : σ → Prop) (f : σ → α → σ)
    (hf : ∀ s a, P s → P (f s a)) :
    ∀ (l : List α) (s : σ), P s → P (l.foldl f s) := by
  intro l
  induction l with
  | nil => intro s h; exact h
  | cons a t ih =>
    intro s h
    exact ih (f s a) (hf s a h)

theorem searchAddNodes_inv (s : SearchState) (src : Option Node) (nodes : List Node)
    (h : searchDisjointInv s) : searchDisjointInv (searchAddNodes s src nodes) := by
  unfold searchAddNodes
  dsimp only
  have hp : searchDisjointInv (nodes.foldl searchAddNode (s, false)).1 :=
    foldl_preserve (fun p => searchDisjointInv p.1) searchAddNode
      searchAddNode_inv nodes (s, false) h
  by_cases hb : (nodes.foldl searchAddNode (s, false)).2
  · rw [if_pos hb]
    exact hp
  · rw [if_neg hb]
    exact hp

theorem searchResultStep_inv (bi : Nat) (st : SearchState) (n : Node)
    (h : searchDisjointInv st) : searchDisjointInv (searchResultStep bi st n) := by
  unfold searchResultStep
  by_cases hs : n.id = st.self
  · simpa [hs] using h
  · rw [if_neg hs]
    intro b hb
    have : b ∈ (setSBkt st bi
        { getSBkt st bi with numResults := (getSBkt st bi).numResults + 1 }).buckets := hb
    cases mem_setIdx _ _ _ _ this with
    | inl hm => exact h b hm
    | inr he =>
      rw [he]
      exact sbDisjoint_getSBkt st bi h
  -- the outer record update only changes numResults and resultBuffer

theorem addQueryResults_inv (s : SearchState) (src : Node) (results : List Node)
    (h : searchDisjointInv s) : searchDisjointInv (addQueryResults s src results) := by
  unfold addQueryResults
  dsimp only
  exact foldl_preserve searchDisjointInv _
    (fun st n hst => searchResultStep_inv _ st n hst) results _
    (searchDisjointInv_setSBkt _ _ _ h
      (sbSetAsked_disjoint _ _ (sbDisjoint_getSBkt _ _ h)))

theorem applySOp_inv (s : SearchState) (op : SOp) (s1 : SearchState)
    (h : searchDisjointInv s) (he : applySOp s op = some s1) :
    searchDisjointInv s1 := by
  cases op with
  | addNodes src nodes =>
    cases he
    exact searchAddNodes_inv s src nodes h
  | queryTarget =>
    cases he
    exact h
  | addQueryResults src results =>
    cases he
    exact addQueryResults_inv s src results h
  | peekResult =>
    cases he
    exact h
  | popResult =>
    unfold applySOp popResult at he
    cases hb : s.resultBuffer with
    | nil => rw [hb] at he; cases he
    | cons a t =>
      rw [hb] at he
      cases he
      intro b hbk
      exact h b hbk

theorem newSearch_inv (t self : Nat) (k : Int) :
    searchDisjointInv (newSearch t self k) := by
  intro b hb
  unfold newSearch at hb
  obtain ⟨i, _, he⟩ := List.mem_map.mp hb
  intro p hp
  rw [← he] at hp
  simp at hp

/-- C9: for every Search instance reachable from a fresh one by any
sequence of public operations, every bucket's `new` map and `asked` set are
disjoint. -/
theorem new_asked_disjoint (t self : Nat) (k : Int) (ops : List SOp)
    (s : SearchState) (h : applySOps (newSearch t self k) ops = some s) :
    searchDisjointInv s := by
  have main : ∀ (rest : List SOp) (s0 sf : SearchState), searchDisjointInv s0 →
      applySOps s0 rest = some sf → searchDisjointInv sf := by
    intro rest
    induction rest with
    | nil =>
      intro s0 sf h0 he
      cases he
      exact h0
    | cons op t ih =>
      intro s0 sf h0 he
      unfold applySOps at he
      cases hop : applySOp s0 op with
      | none => rw [hop] at he; cases he
      | some s1 =>
        rw [hop] at he
        exact ih s1 sf (applySOp_inv s0 op s1 h0 hop) he
  exact main ops (newSearch t self k) s (newSearch_inv t self k) h

/-- C9 witness: a concrete run (add nodes, a query round, a pop) keeps
`new` and `asked` disjoint in every bucket. -/
theorem new_asked_disjoint_witness :
    searchDisjointInv ((applySOps (newSearch 0 5 16)
        [SOp.addNodes none [⟨1, 1⟩, ⟨2, 2⟩], SOp.queryTarget,
         SOp.addQueryResults ⟨1, 1⟩ [⟨3, 3⟩], SOp.peekResult, SOp.popResult]).getD
      (newSearch 0 5 16)) :=
  new_asked_disjoint 0 5 16
    [SOp.addNodes none [⟨1, 1⟩, ⟨2, 2⟩], SOp.queryTarget,
     SOp.addQueryResults ⟨1, 1⟩ [⟨3, 3⟩], SOp.peekResult, SOp.popResult]
    _ (by decide)


/-! ### Standby bound (C7)

The stored `count[Standby]` equals the number of Standby attempts in the
bucket's map in every reachable state, and `AddNodes` refuses the 21st
Standby candidate, so the number of Standby attempts per bucket never
exceeds `regBucketMaxReplacements = 20`. -/

/-- Number of attempts with state `st` held in an attempt map. -/
def countState (st : RegAttemptState) (l : List (Nat × RegAttempt)) : Nat :=
  (l.filter (fun p => decide (p.2.state = st))).length

theorem ras_beq_iff (a b : RegAttemptState) : (a == b) = true ↔ a = b := by
  cases a <;> cases b <;> decide

theorem countState_cons (st : RegAttemptState) (q : Nat × RegAttempt)
    (t : List (Nat × RegAttempt)) :
    countState st (q :: t) = (if q.2.state = st then 1 else 0) + countState st t := by
  unfold countState
  by_cases h : q.2.state = st <;> simp [List.filter, h] <;> omega

theorem countState_append (st : RegAttemptState) (l : List (Nat × RegAttempt))
    (k : Nat) (v : RegAttempt) :
    countState st (l ++ [(k, v)]) = countState st l + (if v.state = st then 1 else 0) := by
  induction l with
  | nil => simp [countState, List.filter]; by_cases h : v.state = st <;> simp [h]
  | cons p t ih =>
    rw [List.cons_append, countState_cons, countState_cons, ih]
    omega

theorem aupdate_eq_of_none {β : Type} (l : List (Nat × β)) (k : Nat) (f : β → β)
    (h : alookup l k = none) : aupdate l k f = l := by
  induction l with
  | nil => rfl
  | cons p t ih =>
    by_cases hp : p.1 = k
    · simp [alookup, hp] at h
    · simp only [alookup, if_neg hp] at h
      simp [aupdate, hp, ih h]

theorem aremove_eq_of_none {β : Type} (l : List (Nat × β)) (k : Nat)
    (h : alookup l k = none) : aremove l k = l := by
  induction l with
  | nil => rfl
  | cons p t ih =>
    by_cases hp : p.1 = k
    · simp [alookup, hp] at h
    · simp only [alookup, if_neg hp] at h
      simp [aremove, hp, ih h]

theorem countState_aupdate (st : RegAttemptState) (l : List (Nat × RegAttempt))
    (k : Nat) (f : RegAttempt → RegAttempt) (a : RegAttempt)
    (hl : alookup l k = some a) (hn : (akeys l).Nodup) :
    countState st (aupdate l k f) + (if a.state = st then 1 else 0)
      = countState st l + (if (f a).state = st then 1 else 0) := by
  induction l with
  | nil => simp [alookup] at hl
  | cons p t ih =>
    simp only [akeys, List.map_cons, List.nodup_cons] at hn
    by_cases hp : p.1 = k
    · have ha : a = p.2 := by
        simp [alookup, hp] at hl
        exact hl.symm
      have htn : alookup t k = none := by
        rw [alookup_none_iff]
        intro hc
        exact hn.1 (by rw [hp]; exact hc)
      have hupd : aupdate (p :: t) k f = (p.1, f p.2) :: t := by
        simp [aupdate, hp, aupdate_eq_of_none t k f htn]
      rw [hupd, ha, countState_cons, countState_cons]
      dsimp only
      omega
    · have hlt : alookup t k = some a := by
        simpa [alookup, hp] using hl
      have hupd : aupdate (p :: t) k f = p :: aupdate t k f := by
        simp [aupdate, hp]
      rw [hupd, countState_cons, countState_cons]
      have := ih hlt hn.2
      omega

theorem countState_aremove (st : RegAttemptState) (l : List (Nat × RegAttempt))
    (k : Nat) (a : RegAttempt) (hl : alookup l k = some a)
    (hn : (akeys l).Nodup) :
    countState st (aremove l k) + (if a.state = st then 1 else 0)
      = countState st l := by
  induction l with
  | nil => simp [alookup] at hl
  | cons p t ih =>
    simp only [akeys, List.map_cons, List.nodup_cons] at hn
    by_cases hp : p.1 = k
    · have ha : a = p.2 := by
        simp [alookup, hp] at hl
        exact hl.symm
      have htn : alookup t k = none := by
        rw [alookup_none_iff]
        intro hc
        exact hn.1 (by rw [hp]; exact hc)
      have hrem : aremove (p :: t) k = t := by
        simp [aremove, hp, aremove_eq_of_none t k htn]
      rw [hrem, ha, countState_cons]
      omega
    · have hlt : alookup t k = some a := by
        simpa [alookup, hp] using hl
      have hrem : aremove (p :: t) k = p :: aremove t k := by
        simp [aremove, hp]
      rw [hrem, countState_cons, countState_cons]
      have := ih hlt hn.2
      omega

/-- Per-bucket C7 invariant: unique keys, an accurate Standby counter, and
at most 20 Standby attempts. -/
def regBucketInv (b : RegBucket) : Prop :=
  (akeys b.att).Nodup
  ∧ b.countStandby = (countState RegAttemptState.Standby b.att : Int)
  ∧ countState RegAttemptState.Standby b.att ≤ 20

/-- C7 invariant over the whole registration state. -/
def regStandbyInv (s : RegState) : Prop := ∀ b ∈ s.buckets, regBucketInv b

/-- C7 conclusion: at most 20 Standby attempts per bucket. -/
def regStandbyBound (s : RegState) : Prop :=
  ∀ b ∈ s.buckets, countState RegAttemptState.Standby b.att ≤ 20

instance (b : RegBucket) : Decidable (regBucketInv b) := by
  unfold regBucketInv
  infer_instance

instance (s : RegState) : Decidable (regStandbyInv s) := by
  unfold regStandbyInv
  infer_instance

theorem regBucketInv_empty : regBucketInv emptyRegBucket := by
  refine ⟨List.nodup_nil, rfl, by decide⟩

theorem regBucketInv_getBkt (s : RegState) (bi : Nat) (h : regStandbyInv s) :
    regBucketInv (getBkt s bi) := by
  by_cases hlt : bi < s.buckets.length
  · exact h _ (nth_mem _ _ _ hlt)
  · unfold getBkt
    rw [nth_oob _ _ _ (by omega)]
    exact regBucketInv_empty

theorem regStandbyInv_setBkt (s : RegState) (bi : Nat) (b : RegBucket)
    (h : regStandbyInv s) (hb : regBucketInv b) : regStandbyInv (setBkt s bi b) := by
  intro b2 hb2
  cases mem_setIdx s.buckets bi b b2 hb2 with
  | inl hm => exact h b2 hm
  | inr he => exact he ▸ hb


theorem countStandby_decCount (b : RegBucket) (st : RegAttemptState) :
    (decCount b st).countStandby
      = b.countStandby - (if st = RegAttemptState.Standby then 1 else 0) := by
  cases st <;> simp [decCount]

theorem countStandby_incCount (b : RegBucket) (st : RegAttemptState) :
    (incCount b st).countStandby
      = b.countStandby + (if st = RegAttemptState.Standby then 1 else 0) := by
  cases st <;> simp [incCount]

theorem regBucketInv_aupdate_keepState (b : RegBucket) (k : Nat)
    (f : RegAttempt → RegAttempt) (a : RegAttempt)
    (halk : alookup b.att k = some a) (hstate : (f a).state = a.state)
    (hinv : regBucketInv b) : regBucketInv { b with att := aupdate b.att k f } := by
  obtain ⟨hnodup, hacc, hbound⟩ := hinv
  have hcnt := countState_aupdate RegAttemptState.Standby b.att k f a halk hnodup
  rw [hstate] at hcnt
  refine ⟨?_, ?_, ?_⟩
  · show (akeys (aupdate b.att k f)).Nodup
    rw [akeys_aupdate]
    exact hnodup
  · show b.countStandby = (countState RegAttemptState.Standby (aupdate b.att k f) : Int)
    omega
  · show countState RegAttemptState.Standby (aupdate b.att k f) ≤ 20
    omega

theorem refillAttempts_inv (u : RegState) (bi : Nat) (h : regStandbyInv u) :
    regStandbyInv (refillAttempts u bi) := by
  unfold refillAttempts
  dsimp only
  split_ifs with hw
  · exact h
  · cases hfind : (getBkt u bi).att.find? (fun p => p.2.state == RegAttemptState.Standby) with
    | none => exact h
    | some p =>
      obtain ⟨hnodup, hacc, hbound⟩ := regBucketInv_getBkt u bi h
      have hps := @List.find?_some (Nat × RegAttempt)
        (fun q => q.2.state == RegAttemptState.Standby) p (getBkt u bi).att hfind
      have hstd : p.2.state = RegAttemptState.Standby := (ras_beq_iff _ _).mp hps
      have halk : alookup (getBkt u bi).att p.1 = some p.2 :=
        alookup_of_mem_nodup _ _ _ hnodup (List.mem_of_find?_eq_some hfind)
      have hcnt := countState_aupdate RegAttemptState.Standby (getBkt u bi).att p.1
        (fun _ => { p.2 with state := RegAttemptState.Waiting, nextTime := u.now })
        p.2 halk hnodup
      rw [hstd] at hcnt
      simp at hcnt
      intro b hb
      refine regStandbyInv_setBkt u bi _ h ⟨?_, ?_, ?_⟩ b hb
      · rw [att_incCount, att_decCount]
        show (akeys (aupdate (getBkt u bi).att p.1 _)).Nodup
        rw [akeys_aupdate]
        exact hnodup
      · rw [countStandby_incCount, countStandby_decCount, att_incCount, att_decCount, hstd]
        show (getBkt u bi).countStandby - (if RegAttemptState.Standby = RegAttemptState.Standby
            then (1 : Int) else 0) + (if RegAttemptState.Waiting = RegAttemptState.Standby
            then (1 : Int) else 0)
          = (countState RegAttemptState.Standby (aupdate (getBkt u bi).att p.1 _) : Int)
        simp only [reduceIte]
        rw [if_neg (by decide : ¬(RegAttemptState.Waiting = RegAttemptState.Standby))]
        omega
      · rw [att_incCount, att_decCount]
        show countState RegAttemptState.Standby (aupdate (getBkt u bi).att p.1 _) ≤ 20
        omega

theorem removeBucket_inv (W : RegState) (id : Nat) (a : RegAttempt)
    (hW : regStandbyInv W) (halk : findAtt W id = some a) :
    regStandbyInv (setBkt W (regBucketIndex W.topic id)
      (decCount { getBkt W (regBucketIndex W.topic id) with
          att := aremove (getBkt W (regBucketIndex W.topic id)).att id } a.state)) := by
  obtain ⟨hnodup, hacc, hbound⟩ := regBucketInv_getBkt W (regBucketIndex W.topic id) hW
  have hcnt := countState_aremove RegAttemptState.Standby
    (getBkt W (regBucketIndex W.topic id)).att id a halk hnodup
  refine regStandbyInv_setBkt _ _ _ hW ⟨?_, ?_, ?_⟩
  · rw [att_decCount]
    show (akeys (aremove (getBkt W (regBucketIndex W.topic id)).att id)).Nodup
    exact akeys_aremove_nodup _ _ hnodup
  · rw [countStandby_decCount, att_decCount]
    show (getBkt W (regBucketIndex W.topic id)).countStandby
        - (if a.state = RegAttemptState.Standby then (1 : Int) else 0)
      = (countState RegAttemptState.Standby
          (aremove (getBkt W (regBucketIndex W.topic id)).att id) : Int)
    by_cases hst : a.state = RegAttemptState.Standby
    · rw [hst] at hcnt ⊢
      simp only [reduceIte] at hcnt ⊢
      omega
    · simp [hst] at hcnt ⊢
      omega
  · rw [att_decCount]
    show countState RegAttemptState.Standby
        (aremove (getBkt W (regBucketIndex W.topic id)).att id) ≤ 20
    by_cases hst : a.state = RegAttemptState.Standby
    · simp [hst] at hcnt
      omega
    · simp [hst] at hcnt
      omega

theorem removeAttempt_inv (u : RegState) (id : Nat) (v : RegState)
    (h : regStandbyInv u) (he : removeAttempt u id = some v) : regStandbyInv v := by
  unfold removeAttempt at he
  cases hf : findAtt u id with
  | none => rw [hf] at he; cases he
  | some a =>
    rw [hf] at he
    dsimp only at he
    by_cases hcond : a.inFlight = false ∧ memb u.heap id = true
    · rw [if_pos hcond] at he
      cases he
      exact removeBucket_inv { u with heap := hremove (keyOf u) u.heap (posOf u.heap id) }
        id a h hf
    · rw [if_neg hcond] at he
      cases he
      exact removeBucket_inv u id a h hf


theorem regAddNode_inv (u : RegState) (n : Node) (h : regStandbyInv u) :
    regStandbyInv (regAddNode u n) := by
  unfold regAddNode
  dsimp only
  by_cases hs : n.id = u.self
  · rw [if_pos hs]
    exact h
  · rw [if_neg hs]
    cases halk : alookup (getBkt u (regBucketIndex u.topic n.id)).att n.id with
    | some attempt =>
      dsimp only
      by_cases hseq : attempt.node.seq < n.seq
      · rw [if_pos hseq]
        exact regStandbyInv_setBkt _ _ _ h
          (regBucketInv_aupdate_keepState _ _ _ attempt halk rfl
            (regBucketInv_getBkt u _ h))
      · rw [if_neg hseq]
        exact h
    | none =>
      dsimp only
      by_cases hfull : regBucketMaxReplacements
          ≤ (getBkt u (regBucketIndex u.topic n.id)).countStandby
      · rw [if_pos hfull]
        exact h
      · rw [if_neg hfull]
        apply refillAttempts_inv
        obtain ⟨hnodup, hacc, hbound⟩ :=
          regBucketInv_getBkt u (regBucketIndex u.topic n.id) h
        have hc := countState_append RegAttemptState.Standby
          (getBkt u (regBucketIndex u.topic n.id)).att n.id
          { state := RegAttemptState.Standby, nextTime := 0, node := n, ticket := [],
            totalWaitTime := 0, inFlight := false }
        simp only [reduceIte] at hc
        have h20 : regBucketMaxReplacements = (20 : Int) := rfl
        refine regStandbyInv_setBkt _ _ _ h ⟨?_, ?_, ?_⟩
        · rw [att_incCount]
          show (akeys ((getBkt u (regBucketIndex u.topic n.id)).att ++ [(n.id, _)])).Nodup
          exact akeys_append_nodup _ _ _ hnodup halk
        · rw [countStandby_incCount, att_incCount]
          show (getBkt u (regBucketIndex u.topic n.id)).countStandby
              + (if RegAttemptState.Standby = RegAttemptState.Standby then (1 : Int) else 0)
            = (countState RegAttemptState.Standby
                ((getBkt u (regBucketIndex u.topic n.id)).att ++ [(n.id, _)]) : Int)
          simp only [reduceIte]
          omega
        · rw [att_incCount]
          show countState RegAttemptState.Standby
              ((getBkt u (regBucketIndex u.topic n.id)).att ++ [(n.id, _)]) ≤ 20
          omega

theorem regAddNodes_inv (u : RegState) (nodes : List Node) (h : regStandbyInv u) :
    regStandbyInv (regAddNodes u nodes) :=
  foldl_preserve regStandbyInv regAddNode (fun s n hs => regAddNode_inv s n hs) nodes u h

theorem startRequest_inv (u : RegState) (id : Nat) (v : RegState)
    (h : regStandbyInv u) (he : startRequest u id = some v) : regStandbyInv v := by
  unfold startRequest at he
  cases hf : findAtt u id with
  | none => rw [hf] at he; cases he
  | some a =>
    rw [hf] at he
    dsimp only at he
    by_cases h1 : a.state = RegAttemptState.Waiting
    · rw [if_pos h1] at he
      by_cases h2 : memb u.heap id = true
      · rw [if_pos h2] at he
        cases he
        exact regStandbyInv_setBkt _ _ _ h
          (regBucketInv_aupdate_keepState _ _ _ a hf rfl (regBucketInv_getBkt _ _ h))
      · rw [if_neg h2] at he
        cases he
    · rw [if_neg h1] at he
      cases he

theorem handleTicketResponse_inv (u : RegState) (id : Nat) (tkt : List Nat)
    (wt : Int) (v : RegState) (h : regStandbyInv u)
    (he : handleTicketResponse u id tkt wt = some v) : regStandbyInv v := by
  unfold handleTicketResponse at he
  cases hf : findAtt u id with
  | none => rw [hf] at he; cases he
  | some a =>
    rw [hf] at he
    dsimp only at he
    by_cases h1 : validateAtt a = true
    · rw [if_pos h1] at he
      cases he
      exact regStandbyInv_setBkt _ _ _ h
        (regBucketInv_aupdate_keepState _ _ _ a hf rfl (regBucketInv_getBkt _ _ h))
    · rw [if_neg h1] at he
      cases he

theorem regBucketInv_setRegistered (b : RegBucket) (k : Nat) (a att2 : RegAttempt)
    (halk : alookup b.att k = some a) (hst2 : att2.state = RegAttemptState.Registered)
    (hinv : regBucketInv b) :
    regBucketInv (incCount
      (decCount { b with att := aupdate b.att k (fun _ => att2) } a.state)
      RegAttemptState.Registered) := by
  obtain ⟨hnodup, hacc, hbound⟩ := hinv
  have hcnt := countState_aupdate RegAttemptState.Standby b.att k (fun _ => att2) a
    halk hnodup
  simp only [hst2] at hcnt
  rw [if_neg (by decide : ¬(RegAttemptState.Registered = RegAttemptState.Standby))] at hcnt
  refine ⟨?_, ?_, ?_⟩
  · rw [att_incCount, att_decCount]
    show (akeys (aupdate b.att k _)).Nodup
    rw [akeys_aupdate]
    exact hnodup
  · rw [countStandby_incCount, countStandby_decCount, att_incCount, att_decCount]
    show b.countStandby - (if a.state = RegAttemptState.Standby then (1 : Int) else 0)
        + (if RegAttemptState.Registered = RegAttemptState.Standby then (1 : Int) else 0)
      = (countState RegAttemptState.Standby (aupdate b.att k (fun _ => att2)) : Int)
    rw [if_neg (by decide : ¬(RegAttemptState.Registered = RegAttemptState.Standby))]
    by_cases hst : a.state = RegAttemptState.Standby
    · rw [hst] at hcnt ⊢
      simp only [reduceIte] at hcnt ⊢
      omega
    · simp [hst] at hcnt ⊢
      omega
  · rw [att_incCount, att_decCount]
    show countState RegAttemptState.Standby (aupdate b.att k (fun _ => att2)) ≤ 20
    by_cases hst : a.state = RegAttemptState.Standby
    · simp [hst] at hcnt
      omega
    · simp [hst] at hcnt
      omega

theorem handleRegistered_inv (u : RegState) (id : Nat) (ttl : Int) (v : RegState)
    (h : regStandbyInv u) (he : handleRegistered u id ttl = some v) :
    regStandbyInv v := by
  unfold handleRegistered at he
  cases hf : findAtt u id with
  | none => rw [hf] at he; cases he
  | some a =>
    rw [hf] at he
    dsimp only at he
    by_cases h1 : validateAtt a = true
    · rw [if_pos h1] at he
      cases he
      apply refillAttempts_inv
      exact regStandbyInv_setBkt _ _ _ h
        (regBucketInv_setRegistered _ _ a _ hf rfl (regBucketInv_getBkt _ _ h))
    · rw [if_neg h1] at he
      cases he

theorem handleErrorResponse_inv (u : RegState) (id err : Nat) (v : RegState)
    (h : regStandbyInv u) (he : handleErrorResponse u id err = some v) :
    regStandbyInv v := by
  unfold handleErrorResponse at he
  cases hf : findAtt u id with
  | none => rw [hf] at he; cases he
  | some a =>
    rw [hf] at he
    dsimp only at he
    by_cases h1 : validateAtt a = true
    · rw [if_pos h1] at he
      cases hrm : removeAttempt u id with
      | none => rw [hrm] at he; cases he
      | some s1 =>
        rw [hrm] at he
        cases he
        exact refillAttempts_inv _ _ (removeAttempt_inv u id s1 h hrm)
    · rw [if_neg h1] at he
      cases he

theorem update_inv (u v : RegState) (r : Option Nat)
    (h : regStandbyInv u) (he : update u = some (v, r)) : regStandbyInv v := by
  unfold update at he
  cases hh : u.heap with
  | nil =>
    rw [hh] at he
    cases he
    exact h
  | cons topId rest =>
    rw [hh] at he
    dsimp only at he
    cases hf : findAtt u topId with
    | none => rw [hf] at he; cases he
    | some a =>
      rw [hf] at he
      dsimp only at he
      cases hst : a.state with
      | Standby =>
        rw [hst] at he
        dsimp only at he
        cases he
      | Registered =>
        rw [hst] at he
        dsimp only at he
        by_cases ht : a.nextTime ≤ u.now
        · rw [if_pos ht] at he
          cases hrm : removeAttempt u topId with
          | none => rw [hrm] at he; cases he
          | some s1 =>
            rw [hrm] at he
            cases he
            exact refillAttempts_inv _ _ (removeAttempt_inv u topId s1 h hrm)
        · rw [if_neg ht] at he
          cases he
          exact h
      | Waiting =>
        rw [hst] at he
        dsimp only at he
        by_cases ht : a.nextTime ≤ u.now
        · rw [if_pos ht] at he
          cases he
          exact h
        · rw [if_neg ht] at he
          cases he
          exact h

theorem applyROp_inv (u : RegState) (op : ROp) (v : RegState)
    (h : regStandbyInv u) (he : applyROp u op = some v) : regStandbyInv v := by
  cases op with
  | tick t =>
    cases he
    exact h
  | addNodes nodes =>
    cases he
    exact regAddNodes_inv u nodes h
  | update =>
    unfold applyROp at he
    cases hu : update u with
    | none => rw [hu] at he; cases he
    | some p =>
      obtain ⟨v1, r1⟩ := p
      rw [hu] at he
      simp only [Option.map_some'] at he
      cases he
      exact update_inv u _ r1 h hu
  | startRequest id => exact startRequest_inv u id v h he
  | handleTicketResponse id tkt wt => exact handleTicketResponse_inv u id tkt wt v h he
  | handleRegistered id ttl => exact handleRegistered_inv u id ttl v h he
  | handleErrorResponse id err => exact handleErrorResponse_inv u id err v h he

theorem newRegistration_inv (t self : Nat) (rbs n0 : Int) :
    regStandbyInv (newRegistration t self rbs n0) := by
  intro b hb
  unfold newRegistration at hb
  obtain ⟨i, _, he⟩ := List.mem_map.mp hb
  rw [← he]
  refine ⟨List.nodup_nil, rfl, ?_⟩
  show countState RegAttemptState.Standby [] ≤ 20
  decide

/-- C7: after any sequence of public operations starting from a fresh
Registration, no bucket holds more than 20 Standby attempts, and `AddNodes`
silently drops any fresh candidate whose bucket already has
`regBucketMaxReplacements` Standby attempts (the would-be 21st). -/
theorem standby_bound (t self : Nat) (rbs n0 : Int) (ops : List ROp)
    (s : RegState) (h : applyROps (newRegistration t self rbs n0) ops = some s) :
    regStandbyBound s
    ∧ (∀ n : Node, findAtt s n.id = none → n.id ≠ s.self →
        regBucketMaxReplacements
            ≤ (getBkt s (regBucketIndex s.topic n.id)).countStandby →
        regAddNodes s [n] = s) := by
  have hinv : regStandbyInv s := by
    have main : ∀ (rest : List ROp) (s0 sf : RegState), regStandbyInv s0 →
        applyROps s0 rest = some sf → regStandbyInv sf := by
      intro rest
      induction rest with
      | nil =>
        intro s0 sf h0 he
        cases he
        exact h0
      | cons op tl ih =>
        intro s0 sf h0 he
        unfold applyROps at he
        cases hop : applyROp s0 op with
        | none => rw [hop] at he; cases he
        | some s1 =>
          rw [hop] at he
          exact ih s1 sf (applyROp_inv s0 op s1 h0 hop) he
    exact main ops _ _ (newRegistration_inv t self rbs n0) h
  refine ⟨fun b hb => (hinv b hb).2.2, ?_⟩
  intro n hnone hself hfull
  have hone : regAddNodes s [n] = regAddNode s n := rfl
  rw [hone]
  have hnone' : alookup (getBkt s (regBucketIndex s.topic n.id)).att n.id = none := hnone
  unfold regAddNode
  dsimp only
  rw [if_neg hself, hnone', if_pos hfull]

/-- C7 witness: a concrete operation run stays within the Standby bound. -/
theorem standby_bound_witness :
    regStandbyBound ((applyROps (newRegistration 0 5 1 100)
        [ROp.addNodes [⟨1, 1⟩, ⟨2, 2⟩], ROp.tick 200, ROp.update]).getD
      (newRegistration 0 5 1 100)) :=
  (standby_bound 0 5 1 100 [ROp.addNodes [⟨1, 1⟩, ⟨2, 2⟩], ROp.tick 200, ROp.update]
    _ (by decide)).1


theorem searchResultStep_frame (bi : Nat) (st : SearchState) (n : Node) (j : Nat) :
    (getSBkt (searchResultStep bi st n) j).new = (getSBkt st j).new
    ∧ (getSBkt (searchResultStep bi st n) j).asked = (getSBkt st j).asked := by
  unfold searchResultStep
  by_cases hs : n.id = st.self
  · rw [if_pos hs]
    exact ⟨rfl, rfl⟩
  · rw [if_neg hs]
    show (getSBkt (setSBkt st bi
        { getSBkt st bi with numResults := (getSBkt st bi).numResults + 1 }) j).new = _
      ∧ (getSBkt (setSBkt st bi
        { getSBkt st bi with numResults := (getSBkt st bi).numResults + 1 }) j).asked = _
    by_cases hj : bi = j
    · subst hj
      by_cases hlen : bi < st.buckets.length
      · unfold getSBkt setSBkt
        rw [nth_setIdx_self _ _ _ _ (by simpa using hlen)]
        exact ⟨rfl, rfl⟩
      · unfold getSBkt setSBkt
        rw [setIdx_oob _ _ _ (by omega)]
        exact ⟨rfl, rfl⟩
    · unfold getSBkt setSBkt
      rw [nth_setIdx_ne _ _ _ _ _ hj]
      exact ⟨rfl, rfl⟩

/-- C10: `AddQueryResults` inserts the sender's id into the `asked` set of
the bucket determined by the sender's id even when that id was never
present in any `new` set; because bucket capacity is `|new| + |asked|`,
the entry permanently consumes a slot, and it can prevent a later
`AddNodes` from inserting a candidate into that bucket (shown concretely
for a bucket of capacity 1). -/
theorem addQueryResults_asked_slot (s : SearchState) (src : Node)
    (results : List Node)
    (hbi : searchBucketIndex s.topic src.id < s.buckets.length)
    (hnotin : ∀ b ∈ s.buckets, alookup b.new src.id = none ∧ src.id ∉ b.asked) :
    src.id ∈ (getSBkt (addQueryResults s src results)
        (searchBucketIndex s.topic src.id)).asked
    ∧ sbCount (getSBkt (addQueryResults s src results)
          (searchBucketIndex s.topic src.id))
        = sbCount (getSBkt s (searchBucketIndex s.topic src.id)) + 1
    ∧ alookup (getSBkt (searchAddNodes
          (addQueryResults (newSearch 0 5 1) ⟨1, 1⟩ []) none [⟨2, 2⟩]) 39).new 2 = none
    ∧ alookup (getSBkt (searchAddNodes (newSearch 0 5 1) none [⟨2, 2⟩]) 39).new 2
        = some ⟨2, 2⟩ := by
  have hb := hnotin (getSBkt s (searchBucketIndex s.topic src.id))
    (nth_mem _ _ _ hbi)
  have hmb : memb (getSBkt s (searchBucketIndex s.topic src.id)).asked src.id = false := by
    cases hx : memb (getSBkt s (searchBucketIndex s.topic src.id)).asked src.id
    · rfl
    · exact absurd ((memb_iff _ _).mp hx) hb.2
  have hasked : (sbSetAsked (getSBkt s (searchBucketIndex s.topic src.id)) src.id).asked
      = (getSBkt s (searchBucketIndex s.topic src.id)).asked ++ [src.id] := by
    simp [sbSetAsked, hmb]
  have hnew : (sbSetAsked (getSBkt s (searchBucketIndex s.topic src.id)) src.id).new
      = (getSBkt s (searchBucketIndex s.topic src.id)).new := by
    show aremove _ src.id = _
    exact aremove_eq_of_none _ _ hb.1
  have hframe : ∀ (res : List Node) (st : SearchState) (j : Nat),
      (getSBkt (res.foldl (searchResultStep (searchBucketIndex s.topic src.id)) st) j).new
          = (getSBkt st j).new
      ∧ (getSBkt (res.foldl (searchResultStep (searchBucketIndex s.topic src.id)) st) j).asked
          = (getSBkt st j).asked := by
    intro res
    induction res with
    | nil => intro st j; exact ⟨rfl, rfl⟩
    | cons a t ih =>
      intro st j
      have h1 := searchResultStep_frame (searchBucketIndex s.topic src.id) st a j
      have h2 := ih (searchResultStep (searchBucketIndex s.topic src.id) st a) j
      exact ⟨h2.1.trans h1.1, h2.2.trans h1.2⟩
  have haq : addQueryResults s src results
      = results.foldl (searchResultStep (searchBucketIndex s.topic src.id))
          (setSBkt s (searchBucketIndex s.topic src.id)
            (sbSetAsked (getSBkt s (searchBucketIndex s.topic src.id)) src.id)) := rfl
  have hsb : getSBkt (setSBkt s (searchBucketIndex s.topic src.id)
        (sbSetAsked (getSBkt s (searchBucketIndex s.topic src.id)) src.id))
        (searchBucketIndex s.topic src.id)
      = sbSetAsked (getSBkt s (searchBucketIndex s.topic src.id)) src.id := by
    unfold getSBkt setSBkt
    exact nth_setIdx_self _ _ _ _ (by simpa using hbi)
  refine ⟨?_, ?_, by decide, by decide⟩
  · rw [haq, (hframe results _ _).2, hsb, hasked]
    exact List.mem_append.mpr (Or.inr (List.mem_singleton.mpr rfl))
  · rw [haq]
    unfold sbCount
    rw [(hframe results _ _).1, (hframe results _ _).2, hsb, hasked, hnew]
    rw [List.length_append]
    simp
    omega

/-- C10 witness: on a fresh search with capacity-1 buckets, answering a
query from an unseen node occupies the sender's bucket slot. -/
theorem addQueryResults_asked_slot_witness :
    (1 : Nat) ∈ (getSBkt (addQueryResults (newSearch 0 5 1) ⟨1, 1⟩ [⟨3, 3⟩])
        (searchBucketIndex (newSearch 0 5 1).topic (1 : Nat))).asked :=
  (addQueryResults_asked_slot (newSearch 0 5 1) ⟨1, 1⟩ [⟨3, 3⟩]
    (by decide) (by decide)).1

end Topicindex
